import Mathlib

/-!
Verification of the Cast session-manager state engine: a shallow embedding of
the Session Store (src/unnamed/part_007, store.ts) and the Event Ingestor
(src/src/server.ts), with theorems settling the frozen specification claims.

Modelling conventions:
* The store cache (a JS Map keyed by session id) is a list of session records;
  the key type is `Option String` because a payload may omit `session_id`, in
  which case the JS code indexes the map with `undefined`.
* JS `a || b` on strings (empty string falsy) is `strOr`; on numbers (zero
  falsy) it is `natOr`; `a ?? b` (null/undefined coalescing) is `Option.or`
  style matching.
* The upsert name default `sessionId.slice(0, 8)` throws a TypeError when
  `sessionId` is `undefined`; `mergedSession` returns `none` in that case and
  the callers leave the store unchanged, mirroring the try/catch in the HTTP
  layer that fires before any cache or database mutation.
* Timestamps are naturals (milliseconds); `Date.now()` is an explicit `now`
  argument. Process liveness (`isProcessAlive`) is an explicit oracle.
-/

namespace Cast

/-- Session status enumeration from types.ts (the newer set including pending,
which server.ts assigns to discovered sessions). -/
inductive SessionStatus where
  | idle
  | working
  | needs_input
  | error
  | completed
  | pending
deriving DecidableEq

/-- Terminal kinds from types.ts. -/
inductive TerminalType where
  | tmux
  | vscode
  | iterm2
  | unknown
deriving DecidableEq

/-- The two non-null attention classifications. -/
inductive AttentionKind where
  | critical
  | casual
deriving DecidableEq

/-- AttentionType from types.ts is critical, casual or null; null is `none`. -/
abbrev AttentionType := Option AttentionKind

/-- Todo item status from types.ts. -/
inductive TodoStatus where
  | pending
  | in_progress
  | completed
deriving DecidableEq

/-- A todo item from the TodoWrite tool. -/
structure TodoItem where
  content : String
  activeForm : String
  status : TodoStatus
deriving DecidableEq

/-- Terminal binding: kind, opaque id, optional process id and tty. -/
structure TerminalContext where
  type : TerminalType
  id : String
  shellPid : Option Nat := none
  ttyPath : Option String := none
deriving DecidableEq

/-- Session ids as the store sees them: a JSON payload may omit session_id,
and the JS code then keys the Map with undefined, modelled as `none`. -/
abbrev SessId := Option String

/-- The per-session record held in the store cache (ClaudeSession of types.ts
as constructed by SessionStore.upsert in part_007; that store version has no
plan field). -/
structure ClaudeSession where
  id : SessId
  name : String
  status : SessionStatus
  projectPath : Option String := none
  currentTask : Option String := none
  pendingMessage : Option String := none
  lastActivity : Nat := 0
  alerting : Bool := false
  attentionType : AttentionType := none
  terminal : TerminalContext := ⟨.unknown, "", none, none⟩
  parentId : Option String := none
  todos : Option (List TodoItem) := none
  lastStatus : Option String := none
deriving DecidableEq

/-- The partial update record passed to upsert (TS Partial of ClaudeSession);
every field optional, and attentionType distinguishes absent (`none`) from an
explicit null (`some none`). -/
structure SessionUpdates where
  name : Option String := none
  status : Option SessionStatus := none
  projectPath : Option String := none
  currentTask : Option String := none
  pendingMessage : Option String := none
  alerting : Option Bool := none
  attentionType : Option AttentionType := none
  terminal : Option TerminalContext := none
  parentId : Option String := none
  todos : Option (List TodoItem) := none
  lastStatus : Option String := none
deriving DecidableEq

/-- The store cache: the JS Map as a list in insertion order. -/
abbrev Store := List ClaudeSession

/-- JS string disjunction a || b: the empty string is falsy. -/
def strOr (u : Option String) (v : Option String) : Option String :=
  match u with
  | some s => if s = "" then v else some s
  | none => v

/-- JS numeric disjunction a || b on an optional number: zero is falsy. -/
def natOr (u : Option Nat) (v : Option Nat) : Option Nat :=
  match u with
  | some n => if n = 0 then v else some n
  | none => v

/-- JS nullish coalescing a ?? b on plain optionals. -/
def coal (u : Option α) (v : Option α) : Option α :=
  match u with
  | some x => some x
  | none => v

/-- JS nullish coalescing for the nullable attentionType field: an explicit
null (`some none`) coalesces to the fallback exactly like undefined. -/
def coalAttention (u : Option AttentionType) (v : AttentionType) : AttentionType :=
  match u with
  | some (some k) => some k
  | some none => v
  | none => v

/-- Cache lookup: Map.get keyed by session id. -/
def findSession (store : Store) (sid : SessId) : Option ClaudeSession :=
  store.find? (fun s => s.id = sid)

/-- Cache write: Map.set keyed by session id (replace in place, else append,
matching JS Map insertion-order semantics). -/
def setStore (store : Store) (sid : SessId) (s : ClaudeSession) : Store :=
  match store with
  | [] => [s]
  | t :: ts => if t.id = sid then s :: ts else t :: setStore ts sid s

/-- Cache delete: Map.delete keyed by session id. -/
def removeStore (store : Store) (sid : SessId) : Store :=
  store.filter (fun s => !(s.id = sid : Bool))

/-- JS s.slice(0, n), over the character list. -/
def strTake (s : String) (n : Nat) : String :=
  String.mk (s.data.take n)

/-- The name default `sessionId.slice(0, 8)`: throws (here `none`) when the
session id is undefined. -/
def sliceName (sid : SessId) : Option String :=
  match sid with
  | some s => some (strTake s 8)
  | none => none

/-- The terminal merge inside SessionStore.upsert (part_007 lines 140-145):
field-level JS disjunctions over the update terminal and the existing one. -/
def mergeTerminal (existing : Option ClaudeSession)
    (updates : SessionUpdates) : TerminalContext :=
  { type := match updates.terminal with
      | some t => t.type
      | none => match existing with
        | some e => e.terminal.type
        | none => .unknown
    id := match updates.terminal with
      | some t => if t.id = "" then
          (match existing with | some e => e.terminal.id | none => "")
        else t.id
      | none => match existing with | some e => e.terminal.id | none => ""
    shellPid := natOr (updates.terminal.bind (·.shellPid))
      (existing.bind (·.terminal.shellPid))
    ttyPath := strOr (updates.terminal.bind (·.ttyPath))
      (existing.bind (·.terminal.ttyPath)) }

/-- The merged name `updates.name || existing?.name || sessionId.slice(0, 8)`;
none means the JS expression throws on an undefined session id. -/
def mergeName (sid : SessId) (existing : Option ClaudeSession)
    (updates : SessionUpdates) : Option String :=
  strOr updates.name (strOr (existing.map (·.name)) (sliceName sid))

/-- The merged status `updates.status || existing?.status || idle` (statuses
are non-empty enum strings, always truthy). -/
def mergeStatus (existing : Option ClaudeSession) (updates : SessionUpdates) :
    SessionStatus :=
  (coal updates.status (existing.map (·.status))).getD .idle

/-- The merged project path `updates.projectPath || existing?.projectPath`. -/
def mergeProject (existing : Option ClaudeSession) (updates : SessionUpdates) :
    Option String :=
  strOr updates.projectPath (strOr (existing.bind (·.projectPath)) none)

/-- The merged alerting flag `updates.alerting ?? existing?.alerting ?? false`. -/
def mergeAlerting (existing : Option ClaudeSession) (updates : SessionUpdates) :
    Bool :=
  (coal updates.alerting (existing.map (·.alerting))).getD false

/-- The nullable attention classification of an optional record. -/
def exAttention (existing : Option ClaudeSession) : AttentionType :=
  match existing with
  | some e => e.attentionType
  | none => none

/-- The merged attention classification
`updates.attentionType ?? existing?.attentionType ?? null`. -/
def mergeAttention (existing : Option ClaudeSession) (updates : SessionUpdates) :
    AttentionType :=
  coalAttention updates.attentionType (exAttention existing)

/-- The merged record body of SessionStore.upsert given a resolved name. -/
def mergeRecord (sid : SessId) (existing : Option ClaudeSession)
    (updates : SessionUpdates) (now : Nat) (nm : String) : ClaudeSession :=
  { id := sid
    name := nm
    status := mergeStatus existing updates
    projectPath := mergeProject existing updates
    currentTask := coal updates.currentTask (existing.bind (·.currentTask))
    pendingMessage := coal updates.pendingMessage (existing.bind (·.pendingMessage))
    lastActivity := now
    alerting := mergeAlerting existing updates
    attentionType := mergeAttention existing updates
    terminal := mergeTerminal existing updates
    parentId := coal updates.parentId (existing.bind (·.parentId))
    todos := coal updates.todos (existing.bind (·.todos))
    lastStatus := coal updates.lastStatus (existing.bind (·.lastStatus)) }

/-- The merged record built inside SessionStore.upsert (part_007 lines
137-161). Returns `none` when the JS code would throw a TypeError computing
`sessionId.slice(0, 8)` on an undefined id. -/
def mergedSession (sid : SessId) (existing : Option ClaudeSession)
    (updates : SessionUpdates) (now : Nat) : Option ClaudeSession :=
  (mergeName sid existing updates).map (mergeRecord sid existing updates now)

/-- SessionStore.upsert: merge over the existing record (or defaults), stamp
last activity, persist and cache. A merge that throws leaves the store
untouched (the exception fires before the database write and cache set). -/
def upsert (store : Store) (sid : SessId) (updates : SessionUpdates)
    (now : Nat) : Store :=
  match mergedSession sid (findSession store sid) updates now with
  | none => store
  | some s => setStore store sid s

/-- Status priority from types.ts (lower is higher priority); the five listed
values appear verbatim in Dashboard.tsx and part_006. Modelled from the spec:
types.ts is absent from src and the spec priority list omits pending, so
pending is given the lowest priority. -/
def STATUS_PRIORITY : SessionStatus → Nat
  | .needs_input => 0
  | .error => 1
  | .working => 2
  | .idle => 3
  | .completed => 4
  | .pending => 5

/-- Keywords that indicate a critical input request (server.ts:7). -/
def CRITICAL_KEYWORDS : List String :=
  ["permission", "approve", "plan", "proceed", "allow", "confirm", "yes/no", "y/n"]

/-- Tools that require user approval before execution (server.ts:13). -/
def APPROVAL_REQUIRED_TOOLS : List String :=
  ["Bash", "Edit", "Write", "MultiEdit", "NotebookEdit", "Task", "KillShell", "Skill"]

/-- Boolean test that a character list is a leading segment of another. -/
def charsPre : List Char → List Char → Bool
  | [], _ => true
  | _ :: _, [] => false
  | a :: as, b :: bs => a == b && charsPre as bs

/-- Boolean test that a character list occurs contiguously inside another,
the semantics of the JS String.includes check. -/
def charsInf (needle : List Char) : List Char → Bool
  | [] => charsPre needle []
  | c :: t => charsPre needle (c :: t) || charsInf needle t

/-- JS hay.includes(needle). -/
def strIncludes (hay needle : String) : Bool :=
  charsInf needle.data hay.data

/-- JS toLowerCase, per character. -/
def jsLower (s : String) : String :=
  String.mk (s.data.map Char.toLower)

/-- JS s.startsWith(p), over the character list. -/
def strStartsWith (s p : String) : Bool :=
  charsPre p.data s.data

/-- Check if a tool requires user approval to run (server.ts:22): exact match
against the approval set, or an mcp__ tool name; an absent or empty tool name
is falsy and read-only. -/
def requiresApproval (toolName : Option String) : Bool :=
  match strOr toolName none with
  | none => false
  | some t =>
    APPROVAL_REQUIRED_TOOLS.any (fun x => x = t) || strStartsWith t "mcp__"

/-- Determine if an input request is critical vs casual (server.ts:34): for a
notification, lowercase the message (absent treated as empty) and scan the
critical-keyword list for a substring hit. -/
def determineAttentionType (message : Option String) (isNotif : Bool) : AttentionType :=
  if (strOr message none) = none && !isNotif then none
  else if isNotif then
    let lowerMessage := jsLower (match message with | some m => m | none => "")
    if CRITICAL_KEYWORDS.any (fun kw => strIncludes lowerMessage kw) then
      some .critical
    else
      some .casual
  else none

/-- JS s.split(sep) for a single-character separator, over the character
list: always at least one (possibly empty) group. -/
def charsSplit (sep : Char) : List Char → List (List Char)
  | [] => [[]]
  | c :: cs =>
    match charsSplit sep cs with
    | [] => [[c]]
    | g :: gs => if c = sep then [] :: g :: gs else (c :: g) :: gs

/-- Derive a friendly session name from the working directory (server.ts:98):
an absent or empty cwd gives unknown, else the final path segment
`parts[parts.length - 1] || 'root'` of the slash split. -/
def deriveSessionName (cwd : Option String) : String :=
  match strOr cwd none with
  | none => "unknown"
  | some c =>
    let parts := (charsSplit '/' c.data).map String.mk
    let last := (parts.getLast?).getD ""
    if last = "" then "root" else last

/-- Build a descriptive name for a subagent (server.ts:108). In the source
the no-description branch returns baseName or baseName plus suffix depending
on the type; the suffix is empty exactly when the type is falsy, so both
branches are baseName plus suffix. -/
def buildSubagentName (description subagentType cwd : Option String) : String :=
  let baseName := deriveSessionName cwd
  let typeSuffix := match strOr subagentType none with
    | some t => " (" ++ t ++ ")"
    | none => ""
  match strOr description none with
  | none => baseName ++ typeSuffix
  | some d =>
    let truncatedDesc :=
      if d.data.length > 30 then strTake d 27 ++ "..." else d
    truncatedDesc ++ typeSuffix

/-- Modelled from the spec: SessionStore.findPendingByPath is invoked by the
session_start handler (server.ts:371) but its definition is absent from src.
Spec 4.2 start rule: if a pending/discovered record already exists for the
same project path it is removed, never merged; modelled as the first record
with status pending and the given project path. -/
def findPendingByPath (store : Store) (path : String) : Option ClaudeSession :=
  store.find? (fun s => s.status = SessionStatus.pending && s.projectPath = some path)

/-- The nine inbound hook event kinds (server.ts HookEvent interface). -/
inductive EventKind where
  | session_start
  | session_end
  | notification
  | tool_use
  | status_change
  | subagent_start
  | subagent_stop
  | todo_update
  | plan_update
deriving DecidableEq

/-- An inbound hook event payload (server.ts HookEvent): the kind plus the
optional fields; sessionId is none when the payload omits session_id. Plan
fields beyond the branch-deciding planName are dropped because the part_007
session record has no plan field to merge them into. -/
structure HookEvent where
  event : EventKind
  sessionId : SessId
  cwd : Option String := none
  projectName : Option String := none
  message : Option String := none
  toolName : Option String := none
  status : Option SessionStatus := none
  lastMessage : Option String := none
  terminalType : Option TerminalType := none
  terminalId : Option String := none
  shellPid : Option Nat := none
  ttyPath : Option String := none
  parentSessionId : Option String := none
  subagentType : Option String := none
  description : Option String := none
  todos : Option (List TodoItem) := none
  planName : Option String := none
deriving DecidableEq

/-- The terminal context refresh shared by the session_start and
subagent_start handlers: `event.terminal_type || 'unknown'`,
`event.terminal_id || ''`, raw shell pid and tty. -/
def eventTerminal (e : HookEvent) : TerminalContext :=
  { type := e.terminalType.getD .unknown
    id := e.terminalId.getD ""
    shellPid := e.shellPid
    ttyPath := e.ttyPath }

/-- The updates of the session_start handler (server.ts:378). -/
def startUpdates (e : HookEvent) : SessionUpdates :=
  { name := some (match strOr e.projectName none with
      | some n => n
      | none => deriveSessionName e.cwd)
    projectPath := e.cwd
    status := some .idle
    alerting := some false
    terminal := some (eventTerminal e) }

/-- The updates of the notification handler (server.ts:403): needs_input,
alerting, classified attention, message as task and pending message, the
best-effort parent link, and name/path defaults only for a new session. -/
def notificationUpdates (store : Store) (e : HookEvent) : SessionUpdates :=
  { status := some .needs_input
    alerting := some true
    attentionType := some (determineAttentionType e.message true)
    currentTask := strOr e.message (some "Waiting for input")
    pendingMessage := e.message
    lastStatus := strOr e.lastMessage none
    parentId := match strOr e.parentSessionId none with
      | some p =>
        if e.sessionId ≠ some p ∧ (findSession store (some p)).isSome then some p
        else none
      | none => none
    name := if (findSession store e.sessionId).isNone then
        some (deriveSessionName e.cwd) else none
    projectPath := if (findSession store e.sessionId).isNone then e.cwd else none }

/-- The updates of the tool_use handler for the child-spawning Task tool
(server.ts:465): working status, no alert change. -/
def taskToolUpdates : SessionUpdates :=
  { status := some .working
    currentTask := some "Running subagent..." }

/-- The updates of the tool_use handler when a read-only tool arrives during
an alert (server.ts:485): only the current task, alert state preserved. -/
def preserveUpdates (current : Option ClaudeSession) (e : HookEvent) :
    SessionUpdates :=
  { currentTask := match strOr e.toolName none with
      | some t => some ("Using " ++ t)
      | none => current.bind (·.currentTask) }

/-- The updates of the tool_use handler when the alert is cleared
(server.ts:491): working, alerting false, a null attention classification and
an undefined pending message handed to the coalescing merge. -/
def clearUpdates (e : HookEvent) : SessionUpdates :=
  { status := some .working
    alerting := some false
    attentionType := some none
    currentTask := match strOr e.toolName none with
      | some t => some ("Using " ++ t)
      | none => none
    pendingMessage := none }

/-- The updates accumulated by the status_change handler (server.ts:503-525):
the explicit status unless the idle anti-race guard skips it, plus the last
narrated text when supplied. -/
def statusChangeUpdates (store : Store) (e : HookEvent) : SessionUpdates :=
  let currentSession := findSession store e.sessionId
  let updates1 : SessionUpdates := match e.status with
    | some st =>
      let shouldSkipIdle : Bool := st = SessionStatus.idle
        && (match currentSession with
            | some c => c.status = SessionStatus.needs_input | none => false)
        && (match currentSession with | some c => c.alerting | none => false)
      if shouldSkipIdle then {}
      else
        { status := some st
          alerting := some (st = SessionStatus.needs_input : Bool)
          attentionType := if st = SessionStatus.needs_input then none else some none }
    | none => {}
  match strOr e.lastMessage none with
  | some lm => { updates1 with lastStatus := some lm }
  | none => updates1

/-- The updates of the subagent_start handler (server.ts:535). -/
def subagentStartUpdates (e : HookEvent) : SessionUpdates :=
  { name := some (buildSubagentName e.description e.subagentType e.cwd)
    projectPath := e.cwd
    status := some .working
    alerting := some false
    parentId := e.parentSessionId
    currentTask := e.description
    terminal := some (eventTerminal e) }

/-- The updates of the subagent_stop handler (server.ts:554). -/
def subagentStopUpdates : SessionUpdates :=
  { status := some .completed
    alerting := some false }

/-- The updates of the todo_update handler (server.ts:566). -/
def todoUpdates (ts : List TodoItem) : SessionUpdates :=
  { todos := some ts
    currentTask := (ts.find? (fun t => t.status = TodoStatus.in_progress)).map
      (·.activeForm) }

/-- The store effect of handleHookEvent (server.ts:354-594); the HTTP
response text is not modelled. Each case mirrors the source switch; the
part_007 session record has no plan field, so both plan_update branches merge
nothing. -/
def handleHookEvent (e : HookEvent) (store : Store) (now : Nat) : Store :=
  match e.event with
  | .session_start =>
    let store1 := match strOr e.cwd none with
      | some c => match findPendingByPath store c with
        | some pendingSession => removeStore store pendingSession.id
        | none => store
      | none => store
    upsert store1 e.sessionId (startUpdates e) now
  | .session_end => removeStore store e.sessionId
  | .notification =>
    upsert store e.sessionId (notificationUpdates store e) now
  | .tool_use =>
    let current := findSession store e.sessionId
    let isApprovalTool := requiresApproval e.toolName
    if e.toolName = some "Task" then
      upsert store e.sessionId taskToolUpdates now
    else
      let preserveAlertState : Bool := !isApprovalTool
        && (match current with | some c => c.status = SessionStatus.needs_input | none => false)
        && (match current with | some c => c.alerting | none => false)
      if preserveAlertState then
        upsert store e.sessionId (preserveUpdates current e) now
      else
        upsert store e.sessionId (clearUpdates e) now
  | .status_change =>
    if statusChangeUpdates store e = ({} : SessionUpdates) then store
    else upsert store e.sessionId (statusChangeUpdates store e) now
  | .subagent_start =>
    upsert store e.sessionId (subagentStartUpdates e) now
  | .subagent_stop =>
    upsert store e.sessionId subagentStopUpdates now
  | .todo_update =>
    match e.todos with
    | some ts => upsert store e.sessionId (todoUpdates ts) now
    | none => store
  | .plan_update =>
    upsert store e.sessionId {} now

/-- SessionStore.clearPending (part_007:253): when the session exists, upsert
working status, alerting false, a null attention classification and an
undefined pending message (an absent field to the coalescing merge). -/
def clearPending (store : Store) (sid : SessId) (now : Nat) : Store :=
  match findSession store sid with
  | some _ =>
    upsert store sid
      { pendingMessage := none
        alerting := some false
        attentionType := some none
        status := some .working } now
  | none => store

/-- The store effect of a successful quick-action send (server.ts:636-641):
for an actionable tmux binding, a successful approve, deny or respond send is
followed by exactly clearPending on the session. -/
def handleActionSendSuccess (store : Store) (sid : SessId) (now : Nat) : Store :=
  clearPending store sid now

/-- The long inactivity threshold, two hours in milliseconds. -/
def LONG_THRESHOLD_MS : Nat := 2 * 60 * 60 * 1000

/-- The short completed-session threshold, thirty minutes in milliseconds. -/
def SHORT_THRESHOLD_MS : Nat := 30 * 60 * 1000

/-- The updates the staleness sweep applies to a stale session
(part_007:296,302): completed, alerting cleared, attention nulled (the null
being dropped by the merge as elsewhere). -/
def staleUpdates : SessionUpdates :=
  { status := some .completed, alerting := some false, attentionType := some none }

/-- The staleness test of one sweep iteration (part_007:287-305): skip
completed sessions; with a truthy (nonzero) shell pid mark when the process
is dead, without one mark when inactive beyond the long threshold. -/
def shouldMark (alive : Nat → Bool) (now : Nat) (session : ClaudeSession) : Bool :=
  !(session.status = SessionStatus.completed : Bool) &&
    (match natOr session.terminal.shellPid none with
      | some pid => !(alive pid)
      | none => session.lastActivity < now - LONG_THRESHOLD_MS)

/-- One iteration of the staleness sweep loop. -/
def cleanupStep (alive : Nat → Bool) (now : Nat) (acc : Store)
    (session : ClaudeSession) : Store :=
  if shouldMark alive now session then upsert acc session.id staleUpdates now
  else acc

/-- SessionStore.cleanupStaleSessions (part_007:282): iterate the sweep over
a snapshot of the store, upserting the stale updates into the live store. -/
def cleanupStaleSessions (alive : Nat → Bool) (now : Nat) (store : Store) : Store :=
  store.foldl (cleanupStep alive now) store

/-- The removal test of the pruning pass (part_007:336-341): any session
older than the long threshold, or a completed one older than the short
threshold. -/
def pruneCond (now : Nat) (s : ClaudeSession) : Bool :=
  s.lastActivity < now - LONG_THRESHOLD_MS
  || (s.status = SessionStatus.completed
      && s.lastActivity < now - SHORT_THRESHOLD_MS)

/-- SessionStore.pruneOldSessions (part_007:332): hard-delete every session
the removal test selects. -/
def pruneOldSessions (now : Nat) (store : Store) : Store :=
  (store.filter (pruneCond now)).foldl (fun acc s => removeStore acc s.id) store

/-- SessionStore.getChildren (part_007:357): sessions whose parentId matches
the given id. -/
def getChildren (store : Store) (pid : SessId) : List ClaudeSession :=
  store.filter (fun s => s.parentId = pid)

/-- Aggregated status for a session including its children (types.ts). -/
structure AggregatedStatus where
  status : SessionStatus
  alerting : Bool
  childCount : Nat
  alertingChildCount : Nat
deriving DecidableEq

/-- Sequence a fallible function over a list, failing wholesale on the first
failure; the embedding of a loop of recursive calls any of which may run out
of stack. -/
def mapOpt (f : α → Option β) : List α → Option (List β)
  | [] => some []
  | a :: as =>
    match f a with
    | none => none
    | some b =>
      match mapOpt f as with
      | none => none
      | some bs => some (b :: bs)

/-- SessionStore.getAggregatedStatus (part_007:372), fuelled: the source
recursion carries no visited set, so the embedding spends one unit of fuel
per recursion level and returns none when the stack would not unwind; a none
result for every fuel is divergence of the source. -/
def getAggregatedStatusF : Nat → Store → SessId → Option AggregatedStatus
  | 0, _, _ => none
  | fuel + 1, store, sid =>
    match findSession store sid with
    | none => some ⟨.idle, false, 0, 0⟩
    | some session =>
      let children := getChildren store sid
      match mapOpt (fun c => getAggregatedStatusF fuel store c.id) children with
      | none => none
      | some childAggs =>
        let alertingChildren := (children.zip childAggs).filter
          (fun p => p.1.alerting || p.2.alerting)
        let highestStatus := childAggs.foldl
          (fun h a => if STATUS_PRIORITY a.status < STATUS_PRIORITY h then a.status else h)
          session.status
        some
          { status := highestStatus
            alerting := session.alerting || alertingChildren.length > 0
            childCount := children.length
            alertingChildCount := alertingChildren.length }

/-- SessionStore.getDescendants (part_007:401), fuelled the same way as the
aggregation: children plus the recursive descendants of each child. -/
def getDescendantsF : Nat → Store → SessId → Option (List ClaudeSession)
  | 0, _, _ => none
  | fuel + 1, store, sid =>
    let children := getChildren store sid
    match mapOpt (fun c => getDescendantsF fuel store c.id) children with
    | none => none
    | some ds => some (children ++ ds.flatten)

/-- A record with its timestamp struck, for state comparison modulo
last-activity. -/
def stripTime (s : ClaudeSession) : ClaudeSession :=
  { s with lastActivity := 0 }

/-- A store modulo every record timestamp. -/
def stripTimes (store : Store) : Store :=
  store.map stripTime

/-! Basic algebra of the JS disjunction and coalescing helpers. -/

@[simp]
theorem strOr_none (v : Option String) : strOr none v = v := rfl

@[simp]
theorem coal_none {α : Type} (v : Option α) : coal none v = v := rfl

@[simp]
theorem coal_some {α : Type} (x : α) (v : Option α) : coal (some x) v = some x := rfl

@[simp]
theorem natOr_none (v : Option Nat) : natOr none v = v := rfl

theorem coal_coal {α : Type} (a b : Option α) : coal a (coal a b) = coal a b := by
  cases a <;> rfl

theorem strOr_strOr (a b : Option String) : strOr a (strOr a b) = strOr a b := by
  cases a with
  | none => rfl
  | some s =>
    by_cases h : s = "" <;> simp [strOr, h]

theorem natOr_natOr (a b : Option Nat) : natOr a (natOr a b) = natOr a b := by
  cases a with
  | none => rfl
  | some n =>
    by_cases h : n = 0 <;> simp [natOr, h]

theorem coalAttention_coalAttention (a : Option AttentionType) (b : AttentionType) :
    coalAttention a (coalAttention a b) = coalAttention a b := by
  rcases a with _ | (_ | k) <;> rfl

theorem coal_getD {α : Type} (a : Option α) (b : Option α) (d : α) :
    (coal a (some ((coal a b).getD d))).getD d = (coal a b).getD d := by
  cases a <;> rfl

/-- A pure JS || chain that bottoms out at undefined never produces the empty
string. -/
theorem strOr_base_ne_empty (a b : Option String) :
    strOr a (strOr b none) ≠ some "" := by
  cases a with
  | none =>
    cases b with
    | none => simp [strOr]
    | some t => by_cases h : t = "" <;> simp [strOr, h]
  | some s => by_cases h : s = "" <;>
      cases b with
      | none => simp [strOr, h]
      | some t => by_cases h2 : t = "" <;> simp [strOr, h, h2]

theorem strOr_chain_idem (u e : Option String) :
    strOr u (strOr (strOr u (strOr e none)) none) = strOr u (strOr e none) := by
  cases u with
  | none =>
    cases e with
    | none => rfl
    | some t => by_cases h : t = "" <;> simp [strOr, h]
  | some s =>
    by_cases h : s = "" <;>
    · cases e with
      | none => simp [strOr, h]
      | some t => by_cases h2 : t = "" <;> simp [strOr, h, h2]

/-! Store cache lemmas. -/

theorem findSession_nil (sid : SessId) : findSession [] sid = none := rfl

theorem findSession_cons (t : ClaudeSession) (ts : Store) (sid : SessId) :
    findSession (t :: ts) sid =
      if t.id = sid then some t else findSession ts sid := by
  by_cases h : t.id = sid <;> simp [findSession, List.find?_cons, h]

theorem findSession_mem {store : Store} {sid : SessId} {v : ClaudeSession}
    (h : findSession store sid = some v) : v ∈ store ∧ v.id = sid := by
  refine ⟨List.mem_of_find?_eq_some h, ?_⟩
  have := List.find?_some h
  simpa using this

theorem findSession_eq_none_iff {store : Store} {sid : SessId} :
    findSession store sid = none ↔ ∀ s ∈ store, s.id ≠ sid := by
  simp [findSession, List.find?_eq_none]

theorem findSession_of_nodup {store : Store} {s : ClaudeSession}
    (hnd : (store.map (·.id)).Nodup) (hs : s ∈ store) :
    findSession store s.id = some s := by
  induction store with
  | nil => cases hs
  | cons t ts ih =>
    rw [List.map_cons, List.nodup_cons] at hnd
    rcases List.mem_cons.mp hs with rfl | hmem
    · simp [findSession_cons]
    · have hne : t.id ≠ s.id := by
        intro he
        exact hnd.1 (he ▸ List.mem_map_of_mem (·.id) hmem)
      simp [findSession_cons, hne, ih hnd.2 hmem]

theorem findSession_setStore_self (store : Store) (sid : SessId)
    (v : ClaudeSession) (h : v.id = sid) :
    findSession (setStore store sid v) sid = some v := by
  induction store with
  | nil => simp [setStore, findSession_cons, h]
  | cons t ts ih =>
    by_cases ht : t.id = sid
    · simp [setStore, ht, findSession_cons, h]
    · simp [setStore, ht, findSession_cons, ih]

theorem findSession_setStore_ne (store : Store) (sid k : SessId)
    (v : ClaudeSession) (hk : k ≠ sid) (hv : v.id = sid) :
    findSession (setStore store sid v) k = findSession store k := by
  have hvk : v.id ≠ k := by rw [hv]; exact fun h => hk h.symm
  induction store with
  | nil => simp [setStore, findSession_cons, hvk, findSession_nil]
  | cons t ts ih =>
    by_cases ht : t.id = sid
    · have htk : t.id ≠ k := by rw [ht]; exact fun h => hk h.symm
      simp only [setStore, if_pos ht, findSession_cons, if_neg hvk, if_neg htk]
    · simp only [setStore, if_neg ht, findSession_cons, ih]

theorem setStore_setStore (store : Store) (sid : SessId)
    (v w : ClaudeSession) (hv : v.id = sid) :
    setStore (setStore store sid v) sid w = setStore store sid w := by
  induction store with
  | nil => simp [setStore, hv]
  | cons t ts ih =>
    by_cases ht : t.id = sid
    · simp [setStore, ht, hv]
    · simp [setStore, ht, ih]

theorem stripTimes_setStore_of_find {store : Store} {sid : SessId}
    {v : ClaudeSession} (w : ClaudeSession)
    (hf : findSession store sid = some v) (h : stripTime w = stripTime v) :
    stripTimes (setStore store sid w) = stripTimes store := by
  induction store with
  | nil => simp [findSession_nil] at hf
  | cons t ts ih =>
    rw [findSession_cons] at hf
    by_cases ht : t.id = sid
    · simp only [ht, if_pos rfl] at hf
      obtain rfl := Option.some.inj hf
      simp [setStore, ht, stripTimes, h]
    · simp only [ht, if_neg ht] at hf
      simp [setStore, ht, stripTimes] at ih ⊢
      exact ih hf

theorem mem_setStore {store : Store} {sid : SessId} {v x : ClaudeSession}
    (h : x ∈ setStore store sid v) : x = v ∨ x ∈ store := by
  induction store with
  | nil => simp [setStore] at h; exact Or.inl h
  | cons t ts ih =>
    by_cases ht : t.id = sid
    · simp [setStore, ht] at h
      rcases h with rfl | hx
      · exact Or.inl rfl
      · exact Or.inr (List.mem_cons_of_mem _ hx)
    · simp [setStore, ht] at h
      rcases h with rfl | hx
      · exact Or.inr (List.mem_cons_self _ _)
      · rcases ih hx with h1 | h2
        · exact Or.inl h1
        · exact Or.inr (List.mem_cons_of_mem _ h2)

theorem mem_removeStore {store : Store} {sid : SessId} {x : ClaudeSession} :
    x ∈ removeStore store sid ↔ x ∈ store ∧ x.id ≠ sid := by
  simp [removeStore, List.mem_filter]

theorem removeStore_idem (store : Store) (sid : SessId) :
    removeStore (removeStore store sid) sid = removeStore store sid := by
  simp [removeStore, List.filter_filter]

theorem findSession_removeStore_ne (store : Store) (sid k : SessId)
    (hk : k ≠ sid) : findSession (removeStore store sid) k = findSession store k := by
  induction store with
  | nil => rfl
  | cons t ts ih =>
    by_cases ht : t.id = sid
    · have htk : t.id ≠ k := by rw [ht]; exact fun h => hk h.symm
      rw [removeStore, List.filter_cons]
      simp only [ht, decide_True, Bool.not_true, if_false, Bool.false_eq_true]
      rw [findSession_cons, if_neg htk]
      exact ih
    · rw [removeStore, List.filter_cons]
      simp only [ht, decide_False, Bool.not_false, if_true]
      rw [findSession_cons, findSession_cons]
      by_cases htk : t.id = k
      · simp [htk]
      · rw [if_neg htk, if_neg htk]
        exact ih

/-! Merge lemmas. -/

theorem mergedSession_eq_some_iff {sid : SessId} {ex : Option ClaudeSession}
    {u : SessionUpdates} {t : Nat} {v : ClaudeSession} :
    mergedSession sid ex u t = some v ↔
      ∃ nm, mergeName sid ex u = some nm ∧ mergeRecord sid ex u t nm = v := by
  simp [mergedSession, Option.map_eq_some']

theorem mergedSession_id {sid : SessId} {ex : Option ClaudeSession}
    {u : SessionUpdates} {t : Nat} {v : ClaudeSession}
    (h : mergedSession sid ex u t = some v) : v.id = sid := by
  obtain ⟨nm, _, hv⟩ := mergedSession_eq_some_iff.mp h
  rw [← hv]; rfl

theorem upsert_of_merge {store : Store} {sid : SessId} {u : SessionUpdates}
    {t : Nat} {v : ClaudeSession}
    (h : mergedSession sid (findSession store sid) u t = some v) :
    upsert store sid u t = setStore store sid v := by
  simp [upsert, h]

theorem upsert_of_throw {store : Store} {sid : SessId} {u : SessionUpdates}
    {t : Nat} (h : mergedSession sid (findSession store sid) u t = none) :
    upsert store sid u t = store := by
  simp [upsert, h]

theorem findSession_upsert_self {store : Store} {sid : SessId}
    {u : SessionUpdates} {t : Nat} {v : ClaudeSession}
    (h : mergedSession sid (findSession store sid) u t = some v) :
    findSession (upsert store sid u t) sid = some v := by
  rw [upsert_of_merge h]
  exact findSession_setStore_self _ _ _ (mergedSession_id h)

theorem mergedSession_eq_none_iff {sid : SessId} {ex : Option ClaudeSession}
    {u : SessionUpdates} {t : Nat} :
    mergedSession sid ex u t = none ↔ mergeName sid ex u = none := by
  simp [mergedSession]

theorem strOr_absorb {b c : Option String} {nm : String}
    (h : strOr b c = some nm) : strOr (some nm) c = some nm := by
  by_cases hn : nm = ""
  · subst hn
    have hc : c = some "" := by
      cases b with
      | none => simpa [strOr] using h
      | some s =>
        by_cases hs : s = ""
        · simpa [strOr, hs] using h
        · simp [strOr, hs] at h
    simp [strOr, hc]
  · simp [strOr, hn]

/-- The name resolved by a successful merge survives as the existing name of
the record through any later merge with the same falsy-or-equal update. -/
theorem mergeName_self {sid : SessId} {ex : Option ClaudeSession}
    {u : SessionUpdates} {nm : String} (h : mergeName sid ex u = some nm) :
    strOr (some nm) (sliceName sid) = some nm := by
  unfold mergeName at h
  cases hu : u.name with
  | none =>
    rw [hu, strOr_none] at h
    exact strOr_absorb h
  | some s =>
    by_cases hs : s = ""
    · rw [hu] at h
      simp only [strOr, hs, if_pos rfl] at h
      exact strOr_absorb h
    · rw [hu] at h
      simp only [strOr, hs, if_neg hs] at h
      obtain rfl := Option.some.inj h
      simp [strOr, hs]

theorem mergeName_restamp {sid : SessId} {ex : Option ClaudeSession}
    {u : SessionUpdates} {t1 : Nat} {nm : String}
    (h : mergeName sid ex u = some nm) :
    mergeName sid (some (mergeRecord sid ex u t1 nm)) u = some nm := by
  show strOr u.name (strOr (some nm) (sliceName sid)) = some nm
  cases hu : u.name with
  | none => rw [strOr_none]; exact mergeName_self h
  | some s =>
    by_cases hs : s = ""
    · simp only [strOr, hs, if_pos rfl]
      exact mergeName_self h
    · unfold mergeName at h
      rw [hu] at h
      simp only [strOr, hs, if_neg hs] at h ⊢
      exact h

theorem mergeName_drop {sid : SessId} {ex : Option ClaudeSession}
    {u : SessionUpdates} {t1 : Nat} {nm : String}
    (h : mergeName sid ex u = some nm) :
    mergeName sid (some (mergeRecord sid ex u t1 nm))
      { u with name := none, projectPath := none } = some nm := by
  show strOr none (strOr (some nm) (sliceName sid)) = some nm
  rw [strOr_none]
  exact mergeName_self h

theorem mergeName_none_drop {sid : SessId} {ex : Option ClaudeSession}
    {u : SessionUpdates} (h : mergeName sid ex u = none) :
    mergeName sid ex { u with name := none, projectPath := none } = none := by
  show strOr none (strOr (ex.map (·.name)) (sliceName sid)) = none
  rw [strOr_none]
  unfold mergeName at h
  cases hu : u.name with
  | none => rw [hu, strOr_none] at h; exact h
  | some s =>
    rw [hu] at h
    by_cases hs : s = ""
    · simpa [strOr, hs] using h
    · simp [strOr, hs] at h

theorem strOr_pp_idem (u e : Option String) :
    strOr (strOr u (strOr e none)) none = strOr u (strOr e none) := by
  cases hP : strOr u (strOr e none) with
  | none => rfl
  | some s =>
    have hne : s ≠ "" := by
      intro hs
      exact strOr_base_ne_empty u e (hs ▸ hP)
    simp [strOr, hne]

theorem mergeRecord_again (sid : SessId) (ex : Option ClaudeSession)
    (u : SessionUpdates) (t2 : Nat) (nm : String) (r : ClaudeSession)
    (h1 : r.id = sid) (h2 : r.name = nm)
    (h3 : r.status = mergeStatus ex u)
    (h4 : r.projectPath = mergeProject ex u)
    (h5 : r.currentTask = coal u.currentTask (ex.bind (·.currentTask)))
    (h6 : r.pendingMessage = coal u.pendingMessage (ex.bind (·.pendingMessage)))
    (h7 : r.alerting = mergeAlerting ex u)
    (h8 : r.attentionType = mergeAttention ex u)
    (h9 : r.terminal = mergeTerminal ex u)
    (h10 : r.parentId = coal u.parentId (ex.bind (·.parentId)))
    (h11 : r.todos = coal u.todos (ex.bind (·.todos)))
    (h12 : r.lastStatus = coal u.lastStatus (ex.bind (·.lastStatus))) :
    mergeRecord sid (some r) u t2 nm = { r with lastActivity := t2 } := by
  obtain ⟨rid, rnm, rst, rpp, rct, rpm, rla, ral, rat, rterm, rpar, rtd, rls⟩ := r
  dsimp only at h1 h2 h3 h4 h5 h6 h7 h8 h9 h10 h11 h12
  subst h1 h2 h3 h4 h5 h6 h7 h8 h9 h10 h11 h12
  cases hu : u.terminal with
  | none =>
    simp [mergeRecord, mergeStatus, mergeProject, mergeAlerting, mergeAttention,
      exAttention, mergeTerminal, hu, coal_getD, coal_coal, strOr_chain_idem,
      coalAttention_coalAttention, natOr_natOr, strOr_strOr]
  | some tc =>
    by_cases hid : tc.id = "" <;>
      simp [mergeRecord, mergeStatus, mergeProject, mergeAlerting, mergeAttention,
        exAttention, mergeTerminal, hu, hid, coal_getD, coal_coal, strOr_chain_idem,
        coalAttention_coalAttention, natOr_natOr, strOr_strOr]

theorem mergeRecord_dropped (sid : SessId) (ex : Option ClaudeSession)
    (u : SessionUpdates) (t2 : Nat) (nm : String) (r : ClaudeSession)
    (h1 : r.id = sid) (h2 : r.name = nm)
    (h3 : r.status = mergeStatus ex u)
    (h4 : r.projectPath = mergeProject ex u)
    (h5 : r.currentTask = coal u.currentTask (ex.bind (·.currentTask)))
    (h6 : r.pendingMessage = coal u.pendingMessage (ex.bind (·.pendingMessage)))
    (h7 : r.alerting = mergeAlerting ex u)
    (h8 : r.attentionType = mergeAttention ex u)
    (h9 : r.terminal = mergeTerminal ex u)
    (h10 : r.parentId = coal u.parentId (ex.bind (·.parentId)))
    (h11 : r.todos = coal u.todos (ex.bind (·.todos)))
    (h12 : r.lastStatus = coal u.lastStatus (ex.bind (·.lastStatus))) :
    mergeRecord sid (some r) { u with name := none, projectPath := none } t2 nm =
      { r with lastActivity := t2 } := by
  obtain ⟨rid, rnm, rst, rpp, rct, rpm, rla, ral, rat, rterm, rpar, rtd, rls⟩ := r
  dsimp only at h1 h2 h3 h4 h5 h6 h7 h8 h9 h10 h11 h12
  subst h1 h2 h3 h4 h5 h6 h7 h8 h9 h10 h11 h12
  cases hu : u.terminal with
  | none =>
    simp [mergeRecord, mergeStatus, mergeProject, mergeAlerting, mergeAttention,
      exAttention, mergeTerminal, hu, coal_getD, coal_coal, strOr_pp_idem,
      coalAttention_coalAttention, natOr_natOr, strOr_strOr]
  | some tc =>
    by_cases hid : tc.id = "" <;>
      simp [mergeRecord, mergeStatus, mergeProject, mergeAlerting, mergeAttention,
        exAttention, mergeTerminal, hu, hid, coal_getD, coal_coal, strOr_pp_idem,
        coalAttention_coalAttention, natOr_natOr, strOr_strOr]

/-- The core restamp fact: merging the same updates a second time over the
record a successful merge produced only refreshes the timestamp. -/
theorem mergedSession_restamp {sid : SessId} {ex : Option ClaudeSession}
    {u : SessionUpdates} {t1 : Nat} {v : ClaudeSession} (t2 : Nat)
    (h : mergedSession sid ex u t1 = some v) :
    mergedSession sid (some v) u t2 = some { v with lastActivity := t2 } := by
  obtain ⟨nm, hn, hv⟩ := mergedSession_eq_some_iff.mp h
  subst hv
  rw [mergedSession, mergeName_restamp hn, Option.map_some']
  congr 1
  exact mergeRecord_again sid ex u t2 nm _
    rfl rfl rfl rfl rfl rfl rfl rfl rfl rfl rfl rfl

/-- The restamp fact for a second merge that drops the name and project path
updates (the notification handler supplies those only for a new session). -/
theorem mergedSession_drop {sid : SessId} {ex : Option ClaudeSession}
    {u : SessionUpdates} {t1 : Nat} {v : ClaudeSession} (t2 : Nat)
    (h : mergedSession sid ex u t1 = some v) :
    mergedSession sid (some v) { u with name := none, projectPath := none } t2 =
      some { v with lastActivity := t2 } := by
  obtain ⟨nm, hn, hv⟩ := mergedSession_eq_some_iff.mp h
  subst hv
  rw [mergedSession, mergeName_drop hn, Option.map_some']
  congr 1
  exact mergeRecord_dropped sid ex u t2 nm _
    rfl rfl rfl rfl rfl rfl rfl rfl rfl rfl rfl rfl

/-- Applying upsert twice at the same key, the second time with the same
updates or with the name and project path dropped, changes nothing beyond the
timestamp of the touched record. -/
theorem upsert_upsert_strip (store : Store) (sid : SessId)
    (u1 u2 : SessionUpdates) (t1 t2 : Nat)
    (hdrop : u2 = u1 ∨ u2 = { u1 with name := none, projectPath := none }) :
    stripTimes (upsert (upsert store sid u1 t1) sid u2 t2) =
      stripTimes (upsert store sid u1 t1) := by
  cases hm : mergedSession sid (findSession store sid) u1 t1 with
  | none =>
    rw [upsert_of_throw hm]
    have hname := mergedSession_eq_none_iff.mp hm
    have h2 : mergedSession sid (findSession store sid) u2 t2 = none := by
      rw [mergedSession_eq_none_iff]
      rcases hdrop with rfl | rfl
      · exact hname
      · exact mergeName_none_drop hname
    rw [upsert_of_throw h2]
  | some v =>
    have hst1 : upsert store sid u1 t1 = setStore store sid v := upsert_of_merge hm
    have hfind : findSession (upsert store sid u1 t1) sid = some v :=
      findSession_upsert_self hm
    have h2 : mergedSession sid (some v) u2 t2 = some { v with lastActivity := t2 } := by
      rcases hdrop with rfl | rfl
      · exact mergedSession_restamp t2 hm
      · exact mergedSession_drop t2 hm
    have h2st : mergedSession sid (findSession (upsert store sid u1 t1) sid) u2 t2 =
        some { v with lastActivity := t2 } := by rw [hfind]; exact h2
    rw [upsert_of_merge h2st]
    exact stripTimes_setStore_of_find _ hfind (by simp [stripTime])

theorem mergeName_some_of_sid_some (i : String) (ex : Option ClaudeSession)
    (u : SessionUpdates) : ∃ nm, mergeName (some i) ex u = some nm := by
  unfold mergeName sliceName
  cases hu : u.name with
  | none =>
    cases ex with
    | none => exact ⟨_, rfl⟩
    | some e =>
      by_cases he : e.name = "" <;> simp [strOr, he]
  | some s =>
    by_cases hs : s = "" <;>
    · cases ex with
      | none => simp [strOr, hs]
      | some e => by_cases he : e.name = "" <;> simp [strOr, hs, he]

/-- The status and alerting flag of a successful merge whose updates carry
neither a status nor an alerting field are those of the existing record. -/
theorem mergeRecord_keeps_status_alerting (sid : SessId) (s : ClaudeSession)
    (u : SessionUpdates) (t : Nat) (nm : String)
    (hst : u.status = none) (hal : u.alerting = none) :
    (mergeRecord sid (some s) u t nm).status = s.status ∧
      (mergeRecord sid (some s) u t nm).alerting = s.alerting := by
  constructor
  · show mergeStatus (some s) u = s.status
    unfold mergeStatus
    rw [hst]
    rfl
  · show mergeAlerting (some s) u = s.alerting
    unfold mergeAlerting
    rw [hal]
    rfl

/-- A successful upsert at a string key sets the record fields the updates
carry explicitly: status, alerting, and a non-null attention classification. -/
theorem upsert_sets_fields (store : Store) (sid : String) (u : SessionUpdates)
    (now : Nat) (st : SessionStatus) (al : Bool) (k : AttentionKind)
    (hst : u.status = some st) (hal : u.alerting = some al)
    (hat : u.attentionType = some (some k)) :
    ∃ r, findSession (upsert store (some sid) u now) (some sid) = some r ∧
      r.status = st ∧ r.alerting = al ∧ r.attentionType = some k := by
  obtain ⟨nm, hnm⟩ := mergeName_some_of_sid_some sid (findSession store (some sid)) u
  have hm : mergedSession (some sid) (findSession store (some sid)) u now =
      some (mergeRecord (some sid) (findSession store (some sid)) u now nm) := by
    rw [mergedSession, hnm, Option.map_some']
  refine ⟨_, findSession_upsert_self hm, ?_, ?_, ?_⟩
  · show mergeStatus _ u = st
    simp [mergeStatus, hst]
  · show mergeAlerting _ u = al
    simp [mergeAlerting, hal]
  · show mergeAttention _ u = some k
    simp [mergeAttention, hat, coalAttention]

/-- C1: a stored session with status needs_input and alerting true keeps both
through a status_change event carrying status idle; the idle downgrade is
discarded by the anti-race guard. -/
theorem C1_idle_downgrade_discarded (store : Store) (now : Nat) (e : HookEvent)
    (s : ClaudeSession)
    (he : e.event = .status_change) (hest : e.status = some .idle)
    (hf : findSession store e.sessionId = some s)
    (hs : s.status = .needs_input) (ha : s.alerting = true) :
    ∃ r, findSession (handleHookEvent e store now) e.sessionId = some r ∧
      r.status = .needs_input ∧ r.alerting = true := by
  have hh : handleHookEvent e store now =
      if statusChangeUpdates store e = ({} : SessionUpdates) then store
      else upsert store e.sessionId (statusChangeUpdates store e) now := by
    unfold handleHookEvent
    rw [he]
  have hupd : statusChangeUpdates store e =
      (match strOr e.lastMessage none with
        | some lm => { lastStatus := some lm }
        | none => ({} : SessionUpdates)) := by
    unfold statusChangeUpdates
    rw [hest, hf]
    simp [hs, ha]
  rw [hh, hupd]
  cases hlm : strOr e.lastMessage none with
  | none =>
    simp only [hlm, if_pos rfl]
    exact ⟨s, hf, hs, ha⟩
  | some lm =>
    simp only [hlm]
    rw [if_neg (by simp [SessionUpdates.mk.injEq])]
    cases hm : mergedSession e.sessionId (findSession store e.sessionId)
        { lastStatus := some lm } now with
    | none =>
      rw [upsert_of_throw hm]
      exact ⟨s, hf, hs, ha⟩
    | some v =>
      obtain ⟨nm, hnm, hv⟩ := mergedSession_eq_some_iff.mp hm
      refine ⟨v, findSession_upsert_self hm, ?_⟩
      rw [hf] at hv
      obtain ⟨h1, h2⟩ := mergeRecord_keeps_status_alerting e.sessionId s
        { lastStatus := some lm } now nm rfl rfl
      rw [hv] at h1 h2
      exact ⟨h1.trans hs, h2.trans ha⟩

/-- The session record used by the C1 witness. -/
def c1rec : ClaudeSession :=
  { id := some "s1", name := "alpha", status := .needs_input,
    alerting := true, lastActivity := 1 }

/-- Witness for C1 at a concrete store and event. -/
theorem C1_idle_downgrade_discarded_witness :
    (({ event := .status_change, sessionId := some "s1", status := some .idle }
        : HookEvent).event = .status_change ∧
      findSession [c1rec] (some "s1") = some c1rec ∧
      c1rec.status = .needs_input ∧ c1rec.alerting = true) ∧
    (∃ r, findSession (handleHookEvent
        { event := .status_change, sessionId := some "s1", status := some .idle }
        [c1rec] 5)
        ({ event := .status_change, sessionId := some "s1", status := some .idle }
          : HookEvent).sessionId = some r ∧
      r.status = .needs_input ∧ r.alerting = true) :=
  ⟨⟨by decide, by decide, by decide, by decide⟩,
    C1_idle_downgrade_discarded [c1rec] 5
      { event := .status_change, sessionId := some "s1", status := some .idle }
      c1rec (by decide) (by decide) (by decide) (by decide) (by decide)⟩

/-- For a notification, the attention classifier is critical exactly when a
critical keyword occurs in the lowercased message, else casual. -/
theorem determineAttentionType_notif (message : Option String) :
    determineAttentionType message true =
      some (if CRITICAL_KEYWORDS.any
          (fun kw => strIncludes (jsLower (message.getD "")) kw)
        then .critical else .casual) := by
  cases message with
  | none =>
    rw [apply_ite some]
    simp [determineAttentionType]
  | some m =>
    rw [apply_ite some]
    simp [determineAttentionType]

/-- C4: a notification event leaves the referenced session needs_input and
alerting, with attention classification critical exactly when the message
contains an approval keyword (case-insensitive substring scan of the fixed
keyword list), casual otherwise, including an absent message. -/
theorem C4_notification_classification (store : Store) (now : Nat)
    (e : HookEvent) (sid : String)
    (he : e.event = .notification) (hsid : e.sessionId = some sid) :
    ∃ r, findSession (handleHookEvent e store now) (some sid) = some r ∧
      r.status = .needs_input ∧ r.alerting = true ∧
      (r.attentionType = some .critical ↔
        ∃ kw ∈ CRITICAL_KEYWORDS,
          strIncludes (jsLower (e.message.getD "")) kw = true) ∧
      (r.attentionType = some .critical ∨ r.attentionType = some .casual) := by
  have hh : handleHookEvent e store now =
      upsert store e.sessionId (notificationUpdates store e) now := by
    unfold handleHookEvent
    rw [he]
  rw [hh, hsid]
  by_cases hkw : CRITICAL_KEYWORDS.any
      (fun kw => strIncludes (jsLower (e.message.getD "")) kw) = true
  · have hdet : determineAttentionType e.message true = some .critical := by
      rw [determineAttentionType_notif, hkw]
      rfl
    obtain ⟨r, h1, h2, h3, h4⟩ := upsert_sets_fields store sid
      (notificationUpdates store e) now .needs_input true .critical rfl rfl
      (by simp [notificationUpdates, hdet])
    refine ⟨r, h1, h2, h3, ?_, Or.inl h4⟩
    rw [h4]
    exact ⟨fun _ => List.any_eq_true.mp hkw, fun _ => rfl⟩
  · have hdet : determineAttentionType e.message true = some .casual := by
      rw [determineAttentionType_notif]
      rw [Bool.not_eq_true] at hkw
      rw [hkw]
      rfl
    obtain ⟨r, h1, h2, h3, h4⟩ := upsert_sets_fields store sid
      (notificationUpdates store e) now .needs_input true .casual rfl rfl
      (by simp [notificationUpdates, hdet])
    refine ⟨r, h1, h2, h3, ?_, Or.inr h4⟩
    rw [h4]
    constructor
    · intro hcon
      simp at hcon
    · intro hex
      exact absurd (List.any_eq_true.mpr hex) hkw

/-- The notification event used by the C4 witness. -/
def c4event : HookEvent :=
  { event := .notification, sessionId := some "s1",
    message := some "Approve plan?" }

/-- Witness for C4 at a concrete store and event: the keyword approve makes
the classification critical. -/
theorem C4_notification_classification_witness :
    (c4event.event = .notification ∧ c4event.sessionId = some "s1") ∧
    (∃ r, findSession (handleHookEvent c4event [] 7) (some "s1") = some r ∧
      r.status = .needs_input ∧ r.alerting = true ∧
      (r.attentionType = some .critical ↔
        ∃ kw ∈ CRITICAL_KEYWORDS,
          strIncludes (jsLower (c4event.message.getD "")) kw = true) ∧
      (r.attentionType = some .critical ∨ r.attentionType = some .casual)) :=
  ⟨⟨by decide, by decide⟩,
    C4_notification_classification [] 7 c4event "s1" (by decide) (by decide)⟩

/-- The alerting critical session used by the C3 failing input. -/
def c3rec : ClaudeSession :=
  { id := some "s1", name := "alpha", status := .needs_input, alerting := true,
    attentionType := some .critical, pendingMessage := some "Approve?",
    lastActivity := 1 }

/-- C3 failing input: a tool_use event with the approval-required Bash tool on
a needs_input, alerting, critical session sets working and clears alerting as
claimed, but the attention classification survives as critical because the
upsert merge drops the explicit null instead of storing it. -/
theorem C3_approval_tool_keeps_attention :
    findSession (handleHookEvent
        { event := .tool_use, sessionId := some "s1", toolName := some "Bash" }
        [c3rec] 5) (some "s1") =
      some { id := some "s1", name := "alpha", status := .working,
             alerting := false, attentionType := some .critical,
             pendingMessage := some "Approve?", currentTask := some "Using Bash",
             lastActivity := 5 } := by
  decide

/-- The session used by the C9 failing input: an actionable tmux binding with
a pending approval message. -/
def c9rec : ClaudeSession :=
  { id := some "s1", name := "alpha", status := .needs_input, alerting := true,
    attentionType := some .critical, pendingMessage := some "Approve?",
    terminal := ⟨.tmux, "main:0.1", some 42, none⟩, lastActivity := 1 }

/-- C9 failing input: after a successful quick-action send the dispatcher
calls clearPending, which sets alerting false and working status, but the
pending message survives because the merge treats the undefined field as
absent, and the attention classification survives its explicit null. -/
theorem C9_send_success_keeps_pending_message :
    handleActionSendSuccess [c9rec] (some "s1") 5 =
      [{ id := some "s1", name := "alpha", status := .working,
         alerting := false, attentionType := some .critical,
         pendingMessage := some "Approve?",
         terminal := ⟨.tmux, "main:0.1", some 42, none⟩, lastActivity := 5 }] := by
  decide

/-- C8 failing input: a notification payload with no session id is not
rejected; the ingestor runs the notification rule keyed by the undefined id
and creates a store record out of the empty store. -/
theorem C8_missing_session_id_creates_record :
    handleHookEvent { event := .notification, sessionId := none,
                      message := some "hi" } [] 5 =
      [{ id := none, name := "unknown", status := .needs_input,
         currentTask := some "hi", pendingMessage := some "hi",
         lastActivity := 5, alerting := true, attentionType := some .casual }] := by
  decide

/-- One record of the cyclic pair used by the C6 failing input. -/
def cycA : ClaudeSession :=
  { id := some "a", name := "a", status := .working, parentId := some "b",
    lastActivity := 1 }

/-- The other record of the cyclic pair used by the C6 failing input. -/
def cycB : ClaudeSession :=
  { id := some "b", name := "b", status := .working, parentId := some "a",
    lastActivity := 1 }

/-- A store whose two records are each other's parent. -/
def cycStore : Store := [cycA, cycB]

/-- C6 failing input: on a two-cycle of parent links the aggregation and the
descendant walk never complete, whatever the recursion budget; the source
recursion carries no visited set, so it recurses without bound. -/
theorem C6_cycle_never_terminates :
    ∀ fuel : Nat,
      getAggregatedStatusF fuel cycStore (some "a") = none ∧
      getAggregatedStatusF fuel cycStore (some "b") = none ∧
      getDescendantsF fuel cycStore (some "a") = none ∧
      getDescendantsF fuel cycStore (some "b") = none := by
  intro fuel
  induction fuel with
  | zero => exact ⟨rfl, rfl, rfl, rfl⟩
  | succ n ih =>
    obtain ⟨ha, hb, hda, hdb⟩ := ih
    have hcha : getChildren cycStore (some "a") = [cycB] := by decide
    have hchb : getChildren cycStore (some "b") = [cycA] := by decide
    have hfa : findSession cycStore (some "a") = some cycA := by decide
    have hfb : findSession cycStore (some "b") = some cycB := by decide
    refine ⟨?_, ?_, ?_, ?_⟩
    · rw [getAggregatedStatusF, hfa, hcha]
      simp only [mapOpt]
      rw [show cycB.id = some "b" from rfl, hb]
    · rw [getAggregatedStatusF, hfb, hchb]
      simp only [mapOpt]
      rw [show cycA.id = some "a" from rfl, ha]
    · rw [getDescendantsF]
      simp only [hcha, mapOpt]
      rw [show cycB.id = some "b" from rfl, hdb]
    · rw [getDescendantsF]
      simp only [hchb, mapOpt]
      rw [show cycA.id = some "a" from rfl, hda]

/-- C10: the coalescing merge of upsert never lets an undefined or null field
of the partial overwrite a stored value, and for name, project path and the
terminal-binding strings the empty string is likewise inert: an existing
session keeps every such field through the upsert, and a non-empty name can
never become empty. -/
theorem C10_upsert_never_clears (store : Store) (sid : SessId)
    (u : SessionUpdates) (now : Nat) (s : ClaudeSession)
    (hf : findSession store sid = some s) :
    ∃ r, findSession (upsert store sid u now) sid = some r ∧
      ((u.name = none ∨ u.name = some "") → s.name ≠ "" → r.name = s.name) ∧
      (u.status = none → r.status = s.status) ∧
      ((u.projectPath = none ∨ u.projectPath = some "") →
        s.projectPath ≠ some "" → r.projectPath = s.projectPath) ∧
      (u.currentTask = none → r.currentTask = s.currentTask) ∧
      (u.pendingMessage = none → r.pendingMessage = s.pendingMessage) ∧
      (u.alerting = none → r.alerting = s.alerting) ∧
      ((u.attentionType = none ∨ u.attentionType = some none) →
        r.attentionType = s.attentionType) ∧
      (u.parentId = none → r.parentId = s.parentId) ∧
      (u.todos = none → r.todos = s.todos) ∧
      (u.lastStatus = none → r.lastStatus = s.lastStatus) ∧
      (u.terminal = none → r.terminal = s.terminal) ∧
      (∀ tc, u.terminal = some tc →
        (tc.id = "" → r.terminal.id = s.terminal.id) ∧
        ((tc.shellPid = none ∨ tc.shellPid = some 0) →
          r.terminal.shellPid = s.terminal.shellPid) ∧
        ((tc.ttyPath = none ∨ tc.ttyPath = some "") →
          r.terminal.ttyPath = s.terminal.ttyPath)) ∧
      (s.name ≠ "" → r.name ≠ "") := by
  cases hm : mergedSession sid (findSession store sid) u now with
  | none =>
    rw [upsert_of_throw hm]
    exact ⟨s, hf, fun _ _ => rfl, fun _ => rfl, fun _ _ => rfl, fun _ => rfl,
      fun _ => rfl, fun _ => rfl, fun _ => rfl, fun _ => rfl, fun _ => rfl,
      fun _ => rfl, fun _ => rfl,
      fun tc _ => ⟨fun _ => rfl, fun _ => rfl, fun _ => rfl⟩, fun h => h⟩
  | some v =>
    obtain ⟨nm, hnm, hv⟩ := mergedSession_eq_some_iff.mp hm
    rw [hf] at hnm hv
    subst hv
    refine ⟨_, findSession_upsert_self hm, ?_, ?_, ?_, ?_, ?_, ?_, ?_, ?_, ?_,
      ?_, ?_, ?_, ?_⟩
    · intro h0 hne
      show nm = s.name
      unfold mergeName at hnm
      rcases h0 with h0 | h0 <;>
        simp only [h0, strOr, Option.map_some', if_pos rfl, hne, if_neg hne] at hnm <;>
        exact (Option.some.inj hnm).symm
    · intro h0
      show mergeStatus (some s) u = s.status
      unfold mergeStatus
      rw [h0]
      rfl
    · intro h0 hne
      show mergeProject (some s) u = s.projectPath
      unfold mergeProject
      cases hpp : s.projectPath with
      | none => rcases h0 with h0 | h0 <;> simp [h0, strOr, hpp]
      | some p =>
        have hp : p ≠ "" := fun he => hne (by rw [hpp, he])
        rcases h0 with h0 | h0 <;> simp [h0, strOr, hp, hpp]
    · intro h0
      show coal u.currentTask _ = s.currentTask
      rw [h0]
      rfl
    · intro h0
      show coal u.pendingMessage _ = s.pendingMessage
      rw [h0]
      rfl
    · intro h0
      show mergeAlerting (some s) u = s.alerting
      unfold mergeAlerting
      rw [h0]
      rfl
    · intro h0
      show mergeAttention (some s) u = s.attentionType
      unfold mergeAttention
      rcases h0 with h0 | h0 <;> rw [h0] <;> rfl
    · intro h0
      show coal u.parentId _ = s.parentId
      rw [h0]
      rfl
    · intro h0
      show coal u.todos _ = s.todos
      rw [h0]
      rfl
    · intro h0
      show coal u.lastStatus _ = s.lastStatus
      rw [h0]
      rfl
    · intro h0
      show mergeTerminal (some s) u = s.terminal
      unfold mergeTerminal
      rw [h0]
      rfl
    · intro tc htc
      refine ⟨?_, ?_, ?_⟩
      · intro h0
        show (mergeTerminal (some s) u).id = s.terminal.id
        unfold mergeTerminal
        rw [htc]
        simp [h0]
      · intro h0
        show (mergeTerminal (some s) u).shellPid = s.terminal.shellPid
        unfold mergeTerminal
        rw [htc]
        rcases h0 with h0 | h0 <;> simp [h0, natOr]
      · intro h0
        show (mergeTerminal (some s) u).ttyPath = s.terminal.ttyPath
        unfold mergeTerminal
        rw [htc]
        rcases h0 with h0 | h0 <;> simp [h0, strOr]
    · intro hne
      show nm ≠ ""
      unfold mergeName at hnm
      cases hun : u.name with
      | some t =>
        rw [hun] at hnm
        by_cases ht : t = ""
        · simp only [strOr, ht, if_pos rfl, Option.map_some', hne, if_neg hne] at hnm
          rw [← Option.some.inj hnm]
          exact hne
        · simp only [strOr, if_neg ht] at hnm
          rw [← Option.some.inj hnm]
          exact ht
      | none =>
        rw [hun] at hnm
        simp only [strOr, Option.map_some', hne, if_neg hne] at hnm
        rw [← Option.some.inj hnm]
        exact hne

/-! Lemmas for the staleness sweep and pruning pass. -/

theorem findSession_upsert_ne {store : Store} {sid k : SessId}
    {u : SessionUpdates} {t : Nat} (hk : k ≠ sid) :
    findSession (upsert store sid u t) k = findSession store k := by
  cases hm : mergedSession sid (findSession store sid) u t with
  | none => rw [upsert_of_throw hm]
  | some v =>
    rw [upsert_of_merge hm]
    exact findSession_setStore_ne _ _ _ _ hk (mergedSession_id hm)

theorem findSession_cleanupStep_ne {alive : Nat → Bool} {now : Nat}
    {acc : Store} {session : ClaudeSession} {k : SessId} (hk : k ≠ session.id) :
    findSession (cleanupStep alive now acc session) k = findSession acc k := by
  unfold cleanupStep
  split
  · exact findSession_upsert_ne hk
  · rfl

theorem findSession_foldl_cleanup_ne (alive : Nat → Bool) (now : Nat)
    (part : List ClaudeSession) (acc : Store) (k : SessId)
    (h : ∀ x ∈ part, k ≠ x.id) :
    findSession (part.foldl (cleanupStep alive now) acc) k = findSession acc k := by
  induction part generalizing acc with
  | nil => rfl
  | cons x xs ih =>
    rw [List.foldl_cons, ih _ (fun y hy => h y (List.mem_cons_of_mem _ hy))]
    exact findSession_cleanupStep_ne (h x (List.mem_cons_self _ _))

theorem exists_findSession_of_mem_ids {store : Store} {k : SessId}
    (h : k ∈ store.map (·.id)) : ∃ r, findSession store k = some r := by
  induction store with
  | nil => simp at h
  | cons t ts ih =>
    by_cases ht : t.id = k
    · exact ⟨t, by simp [findSession_cons, ht]⟩
    · rw [List.map_cons, List.mem_cons] at h
      rcases h with h | h

      · exact absurd h.symm ht
      · obtain ⟨r, hr⟩ := ih h
        exact ⟨r, by rw [findSession_cons, if_neg ht]; exact hr⟩

theorem ids_setStore_of_find {store : Store} {k : SessId} {v : ClaudeSession}
    (hf : ∃ r, findSession store k = some r) (hv : v.id = k) :
    (setStore store k v).map (·.id) = store.map (·.id) := by
  induction store with
  | nil =>
    obtain ⟨r, hr⟩ := hf
    simp [findSession_nil] at hr
  | cons t ts ih =>
    by_cases ht : t.id = k
    · simp [setStore, ht, hv]
    · obtain ⟨r, hr⟩ := hf
      rw [findSession_cons, if_neg ht] at hr
      simp [setStore, ht, ih ⟨r, hr⟩]

theorem ids_upsert_of_mem {store : Store} {k : SessId} {u : SessionUpdates}
    {t : Nat} (h : k ∈ store.map (·.id)) :
    (upsert store k u t).map (·.id) = store.map (·.id) := by
  cases hm : mergedSession k (findSession store k) u t with
  | none => rw [upsert_of_throw hm]
  | some v =>
    rw [upsert_of_merge hm]
    exact ids_setStore_of_find (exists_findSession_of_mem_ids h) (mergedSession_id hm)

theorem ids_cleanup_aux (alive : Nat → Bool) (now : Nat)
    (part : List ClaudeSession) (acc : Store)
    (h : ∀ x ∈ part, x.id ∈ acc.map (·.id)) :
    (part.foldl (cleanupStep alive now) acc).map (·.id) = acc.map (·.id) := by
  induction part generalizing acc with
  | nil => rfl
  | cons x xs ih =>
    rw [List.foldl_cons]
    have hstep : (cleanupStep alive now acc x).map (·.id) = acc.map (·.id) := by
      unfold cleanupStep
      split
      · exact ids_upsert_of_mem (h x (List.mem_cons_self _ _))
      · rfl
    rw [ih _ (fun y hy => by
      rw [hstep]
      exact h y (List.mem_cons_of_mem _ hy)), hstep]

theorem ids_cleanup (alive : Nat → Bool) (now : Nat) (store : Store) :
    (cleanupStaleSessions alive now store).map (·.id) = store.map (·.id) :=
  ids_cleanup_aux alive now store store
    (fun x hx => List.mem_map_of_mem (·.id) hx)

theorem mergeName_some_stale {s : ClaudeSession}
    (hwf : s.id = none → s.name ≠ "") :
    ∃ nm, mergeName s.id (some s) staleUpdates = some nm := by
  unfold mergeName staleUpdates
  by_cases hn : s.name = ""
  · cases hid : s.id with
    | none => exact absurd hn (hwf hid)
    | some x =>
      refine ⟨strTake x 8, ?_⟩
      simp [strOr, hn, sliceName]
  · exact ⟨s.name, by simp [strOr, hn]⟩

/-- Any stale store member passing the staleness test shows up completed,
non-alerting and freshly stamped after the sweep. -/
theorem cleanup_find_marked (alive : Nat → Bool) (now : Nat) (store : Store)
    (s : ClaudeSession) (hnd : (store.map (·.id)).Nodup) (hmem : s ∈ store)
    (hmark : shouldMark alive now s = true) (hwf : s.id = none → s.name ≠ "") :
    ∃ r, findSession (cleanupStaleSessions alive now store) s.id = some r ∧
      r.status = .completed ∧ r.alerting = false ∧ r.lastActivity = now := by
  obtain ⟨pre, post, hsplit⟩ := List.append_of_mem hmem
  subst hsplit
  have hnd' := hnd
  rw [List.map_append, List.map_cons] at hnd'
  have hmid : s.id ∉ pre.map (·.id) ++ post.map (·.id) :=
    (List.nodup_cons.mp (List.nodup_middle.mp hnd')).1
  have hpre : ∀ x ∈ pre, s.id ≠ x.id := by
    intro x hx he
    exact hmid (List.mem_append_left _ (he ▸ List.mem_map_of_mem (·.id) hx))
  have hpost : ∀ x ∈ post, s.id ≠ x.id := by
    intro x hx he
    exact hmid (List.mem_append_right _ (he ▸ List.mem_map_of_mem (·.id) hx))
  have hfind0 : findSession (pre ++ s :: post) s.id = some s :=
    findSession_of_nodup hnd hmem
  unfold cleanupStaleSessions
  rw [List.foldl_append, List.foldl_cons]
  have hacc0 : findSession
      (pre.foldl (cleanupStep alive now) (pre ++ s :: post)) s.id = some s := by
    rw [findSession_foldl_cleanup_ne alive now pre _ _ hpre]
    exact hfind0
  obtain ⟨nm, hnm⟩ := mergeName_some_stale hwf
  have hm : mergedSession s.id
      (findSession (pre.foldl (cleanupStep alive now) (pre ++ s :: post)) s.id)
      staleUpdates now =
      some (mergeRecord s.id (some s) staleUpdates now nm) := by
    rw [hacc0, mergedSession, hnm, Option.map_some']
  refine ⟨mergeRecord s.id (some s) staleUpdates now nm, ?_, rfl, rfl, rfl⟩
  rw [findSession_foldl_cleanup_ne alive now post _ _ hpost]
  unfold cleanupStep
  rw [if_pos hmark]
  exact findSession_upsert_self hm

theorem mem_foldl_removeStore {x : ClaudeSession} (l : List ClaudeSession) (st : Store) :
    x ∈ l.foldl (fun acc s => removeStore acc s.id) st ↔
      x ∈ st ∧ ∀ q ∈ l, x.id ≠ q.id := by
  induction l generalizing st with
  | nil => simp
  | cons q qs ih =>
    rw [List.foldl_cons, ih, mem_removeStore]
    constructor
    · rintro ⟨⟨h1, h2⟩, h3⟩
      exact ⟨h1, by
        intro y hy
        rcases List.mem_cons.mp hy with rfl | hy2
        · exact h2
        · exact h3 y hy2⟩
    · rintro ⟨h1, h2⟩
      exact ⟨⟨h1, h2 q (List.mem_cons_self _ _)⟩,
        fun y hy => h2 y (List.mem_cons_of_mem _ hy)⟩

theorem findSession_foldl_removeStore (l : List ClaudeSession) (st : Store)
    (k : SessId) (h : ∀ q ∈ l, k ≠ q.id) :
    findSession (l.foldl (fun acc s => removeStore acc s.id) st) k =
      findSession st k := by
  induction l generalizing st with
  | nil => rfl
  | cons q qs ih =>
    rw [List.foldl_cons, ih _ (fun y hy => h y (List.mem_cons_of_mem _ hy))]
    exact findSession_removeStore_ne _ _ _ (h q (List.mem_cons_self _ _))

theorem prune_keeps {now : Nat} {st2 : Store} {k : SessId} {r : ClaudeSession}
    (hnd2 : (st2.map (·.id)).Nodup) (hf : findSession st2 k = some r)
    (hcond : pruneCond now r = false) :
    findSession (pruneOldSessions now st2) k = some r := by
  unfold pruneOldSessions
  rw [findSession_foldl_removeStore]
  · exact hf
  · intro q hq he
    obtain ⟨hq2, hqc⟩ := List.mem_filter.mp hq
    have : findSession st2 q.id = some q := findSession_of_nodup hnd2 hq2
    rw [← he, hf] at this
    obtain rfl := Option.some.inj this
    rw [hqc] at hcond
    cases hcond

theorem prune_no_old (now : Nat) (st2 : Store) :
    ∀ x ∈ pruneOldSessions now st2, pruneCond now x = false := by
  intro x hx
  unfold pruneOldSessions at hx
  rw [mem_foldl_removeStore] at hx
  obtain ⟨hx2, hq⟩ := hx
  by_contra hc
  rw [Bool.not_eq_false] at hc
  exact hq x (List.mem_filter.mpr ⟨hx2, hc⟩) rfl

theorem pruneCond_false_of_now {now : Nat} {r : ClaudeSession}
    (hla : r.lastActivity = now) : pruneCond now r = false := by
  unfold pruneCond
  have h1 : ¬ r.lastActivity < now - LONG_THRESHOLD_MS := by
    rw [hla]; exact Nat.not_lt.mpr (Nat.sub_le _ _)
  have h2 : ¬ r.lastActivity < now - SHORT_THRESHOLD_MS := by
    rw [hla]; exact Nat.not_lt.mpr (Nat.sub_le _ _)
  simp [h1, h2]

/-- C7: after one staleness sweep and pruning pass, every non-completed
session whose truthy shell pid is dead ends completed and non-alerting, every
non-completed session without a pid and inactive beyond the long threshold
ends completed and non-alerting, and the surviving store holds no session
older than the long threshold and no completed session older than the short
threshold. -/
theorem C7_reaper_completes_and_prunes (store : Store) (alive : Nat → Bool)
    (now : Nat) (hnd : (store.map (·.id)).Nodup)
    (hwf : ∀ s ∈ store, s.id = none → s.name ≠ "") :
    (∀ s ∈ store, ¬ s.status = .completed →
      ∀ pid, natOr s.terminal.shellPid none = some pid → alive pid = false →
      ∃ r, findSession
          (pruneOldSessions now (cleanupStaleSessions alive now store)) s.id =
          some r ∧ r.status = .completed ∧ r.alerting = false) ∧
    (∀ s ∈ store, ¬ s.status = .completed →
      natOr s.terminal.shellPid none = none →
      s.lastActivity < now - LONG_THRESHOLD_MS →
      ∃ r, findSession
          (pruneOldSessions now (cleanupStaleSessions alive now store)) s.id =
          some r ∧ r.status = .completed ∧ r.alerting = false) ∧
    (∀ r ∈ pruneOldSessions now (cleanupStaleSessions alive now store),
      ¬ r.lastActivity < now - LONG_THRESHOLD_MS) ∧
    (∀ r ∈ pruneOldSessions now (cleanupStaleSessions alive now store),
      r.status = .completed → ¬ r.lastActivity < now - SHORT_THRESHOLD_MS) := by
  have hnd2 : ((cleanupStaleSessions alive now store).map (·.id)).Nodup := by
    rw [ids_cleanup]; exact hnd
  refine ⟨?_, ?_, ?_, ?_⟩
  · intro s hmem hc pid hpid hdead
    have hmark : shouldMark alive now s = true := by
      unfold shouldMark
      rw [hpid]
      simp [hc, hdead]
    obtain ⟨r, hr, h1, h2, h3⟩ :=
      cleanup_find_marked alive now store s hnd hmem hmark (hwf s hmem)
    exact ⟨r, prune_keeps hnd2 hr (pruneCond_false_of_now h3), h1, h2⟩
  · intro s hmem hc hpid hold
    have hmark : shouldMark alive now s = true := by
      unfold shouldMark
      rw [hpid]
      simp [hc, hold]
    obtain ⟨r, hr, h1, h2, h3⟩ :=
      cleanup_find_marked alive now store s hnd hmem hmark (hwf s hmem)
    exact ⟨r, prune_keeps hnd2 hr (pruneCond_false_of_now h3), h1, h2⟩
  · intro r hr
    have := prune_no_old now _ r hr
    unfold pruneCond at this
    intro hlt
    simp [hlt] at this
  · intro r hr hcompleted
    have := prune_no_old now _ r hr
    unfold pruneCond at this
    intro hlt
    simp [hlt, hcompleted] at this

/-- The store of the C7 witness: a session bound to a dead pid and a pidless
session inactive beyond the long threshold. -/
def c7store : Store :=
  [{ id := some "d1", name := "d1", status := .working,
     terminal := ⟨.tmux, "x", some 42, none⟩, lastActivity := 100 },
   { id := some "d2", name := "d2", status := .working, lastActivity := 100 }]

/-- Witness for C7 at a concrete store, a liveness oracle that reports every
process dead, and a late clock. -/
theorem C7_reaper_completes_and_prunes_witness :
    ((c7store.map (·.id)).Nodup ∧
      (∀ s ∈ c7store, s.id = none → s.name ≠ "")) ∧
    ((∀ s ∈ c7store, ¬ s.status = .completed →
      ∀ pid, natOr s.terminal.shellPid none = some pid →
        (fun _ => false : Nat → Bool) pid = false →
      ∃ r, findSession (pruneOldSessions 99999999999
          (cleanupStaleSessions (fun _ => false) 99999999999 c7store)) s.id =
          some r ∧ r.status = .completed ∧ r.alerting = false) ∧
    (∀ s ∈ c7store, ¬ s.status = .completed →
      natOr s.terminal.shellPid none = none →
      s.lastActivity < 99999999999 - LONG_THRESHOLD_MS →
      ∃ r, findSession (pruneOldSessions 99999999999
          (cleanupStaleSessions (fun _ => false) 99999999999 c7store)) s.id =
          some r ∧ r.status = .completed ∧ r.alerting = false) ∧
    (∀ r ∈ pruneOldSessions 99999999999
        (cleanupStaleSessions (fun _ => false) 99999999999 c7store),
      ¬ r.lastActivity < 99999999999 - LONG_THRESHOLD_MS) ∧
    (∀ r ∈ pruneOldSessions 99999999999
        (cleanupStaleSessions (fun _ => false) 99999999999 c7store),
      r.status = .completed →
        ¬ r.lastActivity < 99999999999 - SHORT_THRESHOLD_MS)) :=
  ⟨⟨by decide, by decide⟩,
    C7_reaper_completes_and_prunes c7store (fun _ => false) 99999999999
      (by decide) (by decide)⟩

/-! Lemmas for duplicate-delivery idempotence. -/

theorem coal_self {α : Type} (x : Option α) : coal x x = x := by
  cases x <;> rfl

theorem mergeStatus_of_some {ex : Option ClaudeSession} {u : SessionUpdates}
    {st : SessionStatus} (h : u.status = some st) : mergeStatus ex u = st := by
  unfold mergeStatus
  rw [h]
  rfl

theorem mergeAlerting_of_some {ex : Option ClaudeSession} {u : SessionUpdates}
    {b : Bool} (h : u.alerting = some b) : mergeAlerting ex u = b := by
  unfold mergeAlerting
  rw [h]
  rfl

theorem deriveSessionName_ne_empty (cwd : Option String) :
    deriveSessionName cwd ≠ "" := by
  unfold deriveSessionName
  cases strOr cwd none with
  | none => simp
  | some c =>
    simp only
    split <;> simp_all

theorem mergeName_of_name_some {sid : SessId} {ex : Option ClaudeSession}
    {u : SessionUpdates} {n : String} (hn : u.name = some n) (hne : n ≠ "") :
    mergeName sid ex u = some n := by
  unfold mergeName
  rw [hn]
  simp [strOr, hne]

theorem findPendingByPath_eq_none_iff {store : Store} {c : String} :
    findPendingByPath store c = none ↔
      ∀ x ∈ store, ¬(x.status = .pending ∧ x.projectPath = some c) := by
  unfold findPendingByPath
  rw [List.find?_eq_none]
  constructor
  · intro h x hx hcon
    have := h x hx
    simp [hcon.1, hcon.2] at this
  · intro h x hx
    have := h x hx
    simp only [Bool.and_eq_true, decide_eq_true_eq]
    intro hcon
    exact this hcon

theorem findPendingByPath_eq_some {store : Store} {c : String}
    {p : ClaudeSession} (h : findPendingByPath store c = some p) :
    p ∈ store ∧ p.status = .pending ∧ p.projectPath = some c := by
  refine ⟨List.mem_of_find?_eq_some h, ?_⟩
  have := List.find?_some h
  simpa using this

/-- The status a session_start merge assigns is idle, whatever the store. -/
theorem startUpdates_merge (e : HookEvent) (store1 : Store) (t : Nat) :
    ∃ v, mergedSession e.sessionId (findSession store1 e.sessionId)
        (startUpdates e) t = some v ∧ v.status = .idle := by
  have hn : (startUpdates e).name = some (match strOr e.projectName none with
      | some n => n
      | none => deriveSessionName e.cwd) := rfl
  have hne : (match strOr e.projectName none with
      | some n => n
      | none => deriveSessionName e.cwd) ≠ "" := by
    cases hpn : strOr e.projectName none with
    | none => exact deriveSessionName_ne_empty e.cwd
    | some n =>
      show n ≠ ""
      intro h0
      subst h0
      exact strOr_base_ne_empty e.projectName none hpn
  refine ⟨mergeRecord e.sessionId (findSession store1 e.sessionId)
    (startUpdates e) t (match strOr e.projectName none with
      | some n => n
      | none => deriveSessionName e.cwd), ?_, ?_⟩
  · rw [mergedSession, mergeName_of_name_some hn hne, Option.map_some']
  · show mergeStatus (findSession store1 e.sessionId) (startUpdates e) = .idle
    exact mergeStatus_of_some rfl

/-- The notification updates depend on the store only through the
new-session test and the parent lookup: a store where the session exists and
the parent lookup agrees yields the original updates minus the new-session
name and project path defaults. -/
theorem notificationUpdates_stable (stA stB : Store) (e : HookEvent)
    (hA : (findSession stA e.sessionId).isNone = false)
    (hpar : ∀ p, strOr e.parentSessionId none = some p → e.sessionId ≠ some p →
      findSession stA (some p) = findSession stB (some p)) :
    notificationUpdates stA e =
      { notificationUpdates stB e with name := none, projectPath := none } := by
  unfold notificationUpdates
  rw [hA]
  have hp : (match strOr e.parentSessionId none with
      | some p =>
        if e.sessionId ≠ some p ∧ (findSession stA (some p)).isSome then some p
        else none
      | none => none) =
      (match strOr e.parentSessionId none with
      | some p =>
        if e.sessionId ≠ some p ∧ (findSession stB (some p)).isSome then some p
        else none
      | none => none) := by
    cases hps : strOr e.parentSessionId none with
    | none => rfl
    | some p =>
      dsimp only
      by_cases hpe : e.sessionId = some p
      · simp [hpe]
      · rw [hpar p hps hpe]
  rw [hp]
  simp

/-- A preserve-branch tool_use upsert keeps status, alerting and the task
basis, so recomputing the preserve updates on the new store is stable. -/
theorem preserveUpdates_after (store : Store) (e : HookEvent) (t1 : Nat)
    {s v : ClaudeSession}
    (hcur : findSession store e.sessionId = some s)
    (hm : mergedSession e.sessionId (findSession store e.sessionId)
      (preserveUpdates (some s) e) t1 = some v) :
    v.status = s.status ∧ v.alerting = s.alerting ∧
      preserveUpdates (some v) e = preserveUpdates (some s) e := by
  rw [hcur] at hm
  obtain ⟨nm, hnm, hv⟩ := mergedSession_eq_some_iff.mp hm
  subst hv
  refine ⟨?_, ?_, ?_⟩
  · show mergeStatus (some s) (preserveUpdates (some s) e) = s.status
    unfold mergeStatus
    rfl
  · show mergeAlerting (some s) (preserveUpdates (some s) e) = s.alerting
    unfold mergeAlerting
    rfl
  · unfold preserveUpdates
    cases htn : strOr e.toolName none with
    | some t => rfl
    | none =>
      have h2 : (mergeRecord e.sessionId (some s)
          ({ currentTask := s.currentTask } : SessionUpdates) t1 nm).currentTask
          = s.currentTask := by
        show coal s.currentTask s.currentTask = s.currentTask
        exact coal_self _
      simp only [Option.some_bind, h2]

/-- A clear-branch tool_use upsert sets working status, whatever the prior
record. -/
theorem clearUpdates_merge_status {sid : SessId} {ex : Option ClaudeSession}
    {e : HookEvent} {t : Nat} {v : ClaudeSession}
    (hm : mergedSession sid ex (clearUpdates e) t = some v) :
    v.status = .working := by
  obtain ⟨nm, hnm, hv⟩ := mergedSession_eq_some_iff.mp hm
  subst hv
  show mergeStatus ex (clearUpdates e) = .working
  exact mergeStatus_of_some rfl

/-- After a session_start handled with project path c, no pending record for
c survives, provided at most one existed. -/
theorem findPendingByPath_after_start (store : Store) (e : HookEvent)
    (t1 : Nat) (c : String)
    (hp : ∀ a ∈ store, ∀ b ∈ store, a.status = .pending → a.projectPath = some c →
      b.status = .pending → b.projectPath = some c → a = b) :
    findPendingByPath
      (upsert (match findPendingByPath store c with
        | some p => removeStore store p.id
        | none => store) e.sessionId (startUpdates e) t1) c = none := by
  obtain ⟨v, hv, hvstatus⟩ := startUpdates_merge e
    (match findPendingByPath store c with
      | some p => removeStore store p.id
      | none => store) t1
  rw [findPendingByPath_eq_none_iff]
  intro x hx hcon
  rw [upsert_of_merge hv] at hx
  rcases mem_setStore hx with rfl | hx2
  · rw [hvstatus] at hcon
    cases hcon.1
  · cases hfp : findPendingByPath store c with
    | some p =>
      rw [hfp] at hx2
      obtain ⟨hpmem, hpst, hppath⟩ := findPendingByPath_eq_some hfp
      obtain ⟨hxmem, hxne⟩ := mem_removeStore.mp hx2
      exact hxne (congrArg (·.id)
        (hp x hxmem p hpmem hcon.1 hcon.2 hpst hppath))
    | none =>
      rw [hfp] at hx2
      exact findPendingByPath_eq_none_iff.mp hfp x hx2 hcon

/-- The status_change updates depend on the store only through the skip
condition; equal skip data gives equal updates. -/
theorem statusChangeUpdates_stable (stA stB : Store) (e : HookEvent)
    (h1 : ∀ st, e.status = some st →
      (((st = SessionStatus.idle : Bool) &&
        (match findSession stA e.sessionId with
          | some c => (c.status = SessionStatus.needs_input : Bool)
          | none => false)) &&
        (match findSession stA e.sessionId with
          | some c => c.alerting | none => false)) =
      (((st = SessionStatus.idle : Bool) &&
        (match findSession stB e.sessionId with
          | some c => (c.status = SessionStatus.needs_input : Bool)
          | none => false)) &&
        (match findSession stB e.sessionId with
          | some c => c.alerting | none => false))) :
    statusChangeUpdates stA e = statusChangeUpdates stB e := by
  unfold statusChangeUpdates
  cases hst : e.status with
  | none => rfl
  | some st =>
    dsimp only
    rw [h1 st hst]

/-- The status and alerting flag of the record a status_change upsert wrote,
by skip-branch.  The skip-true and status-none branches keep the existing
fields; the write branch stores the explicit status and its alerting bit. -/
theorem statusChangeUpdates_fields (store : Store) (e : HookEvent)
    (st : SessionStatus) (hst : e.status = some st) :
    (((st = SessionStatus.idle : Bool) &&
        (match findSession store e.sessionId with
          | some c => (c.status = SessionStatus.needs_input : Bool)
          | none => false)) &&
        (match findSession store e.sessionId with
          | some c => c.alerting | none => false)) = true →
      ((statusChangeUpdates store e).status = none ∧
        (statusChangeUpdates store e).alerting = none) := by
  intro hskip
  unfold statusChangeUpdates
  rw [hst]
  dsimp only
  rw [Bool.and_assoc] at hskip ⊢
  rw [hskip]
  simp only [if_pos rfl]
  cases strOr e.lastMessage none <;> exact ⟨rfl, rfl⟩

/-- The write-branch counterpart of statusChangeUpdates_fields. -/
theorem statusChangeUpdates_fields_write (store : Store) (e : HookEvent)
    (st : SessionStatus) (hst : e.status = some st) :
    (((st = SessionStatus.idle : Bool) &&
        (match findSession store e.sessionId with
          | some c => (c.status = SessionStatus.needs_input : Bool)
          | none => false)) &&
        (match findSession store e.sessionId with
          | some c => c.alerting | none => false)) = false →
      ((statusChangeUpdates store e).status = some st ∧
        (statusChangeUpdates store e).alerting =
          some (st = SessionStatus.needs_input : Bool)) := by
  intro hskip
  unfold statusChangeUpdates
  rw [hst]
  dsimp only
  rw [Bool.and_assoc] at hskip ⊢
  rw [hskip]
  simp only [Bool.false_eq_true, if_false]
  cases strOr e.lastMessage none <;> exact ⟨rfl, rfl⟩

/-- The status-none branch of statusChangeUpdates carries no status and no
alerting field. -/
theorem statusChangeUpdates_fields_none (store : Store) (e : HookEvent)
    (hst : e.status = none) :
    (statusChangeUpdates store e).status = none ∧
      (statusChangeUpdates store e).alerting = none := by
  unfold statusChangeUpdates
  rw [hst]
  dsimp only
  cases strOr e.lastMessage none <;> exact ⟨rfl, rfl⟩

/-- The two-pending-records store of the C2 counterexample. -/
def pendStore : Store :=
  [{ id := some "p1", name := "p1", status := .pending,
     projectPath := some "/a", lastActivity := 1 },
   { id := some "p2", name := "p2", status := .pending,
     projectPath := some "/a", lastActivity := 1 }]

/-- The session_start event of the C2 counterexample. -/
def c2event : HookEvent :=
  { event := .session_start, sessionId := some "s", cwd := some "/a" }

/-- C2 counterexample: with two pending records for the same project path,
a duplicated session_start removes one per delivery, so the second delivery
changes the store beyond the touched record's timestamp. -/
theorem C2_duplicate_session_start_diverges :
    stripTimes (handleHookEvent c2event (handleHookEvent c2event pendStore 1) 2) ≠
      stripTimes (handleHookEvent c2event pendStore 1) := by
  decide

/-- Duplicate session_start: idempotent modulo timestamps provided at most
one pending record carries the event's project path. -/
theorem c2_session_start (store : Store) (e : HookEvent) (t1 t2 : Nat)
    (he : e.event = .session_start)
    (hp : ∀ a ∈ store, ∀ b ∈ store, a.status = .pending → b.status = .pending →
      a.projectPath = strOr e.cwd none → b.projectPath = strOr e.cwd none →
      a = b) :
    stripTimes (handleHookEvent e (handleHookEvent e store t1) t2) =
      stripTimes (handleHookEvent e store t1) := by
  have hh : ∀ st t, handleHookEvent e st t =
      upsert (match strOr e.cwd none with
        | some c => (match findPendingByPath st c with
          | some pendingSession => removeStore st pendingSession.id
          | none => st)
        | none => st) e.sessionId (startUpdates e) t := by
    intro st t
    unfold handleHookEvent
    rw [he]
  rw [hh store t1, hh _ t2]
  cases hc : strOr e.cwd none with
  | none =>
    exact upsert_upsert_strip store e.sessionId (startUpdates e)
      (startUpdates e) t1 t2 (Or.inl rfl)
  | some c =>
    have hp2 : ∀ a ∈ store, ∀ b ∈ store, a.status = .pending →
        a.projectPath = some c → b.status = .pending → b.projectPath = some c →
        a = b := by
      intro a ha b hb h1 h2 h3 h4
      exact hp a ha b hb h1 h3 (h2.trans hc.symm) (h4.trans hc.symm)
    have h2 := findPendingByPath_after_start store e t1 c hp2
    dsimp only
    rw [h2]
    exact upsert_upsert_strip
      (match findPendingByPath store c with
        | some pendingSession => removeStore store pendingSession.id
        | none => store) e.sessionId (startUpdates e) (startUpdates e) t1 t2
      (Or.inl rfl)

/-- Duplicate session_end: removal is idempotent. -/
theorem c2_session_end (store : Store) (e : HookEvent) (t1 t2 : Nat)
    (he : e.event = .session_end) :
    stripTimes (handleHookEvent e (handleHookEvent e store t1) t2) =
      stripTimes (handleHookEvent e store t1) := by
  have hh : ∀ st t, handleHookEvent e st t = removeStore st e.sessionId := by
    intro st t
    unfold handleHookEvent
    rw [he]
  rw [hh store t1, hh _ t2, removeStore_idem]

/-- Duplicate notification: the second delivery recomputes the same updates
minus the new-session name and path defaults, which the merge drops. -/
theorem c2_notification (store : Store) (e : HookEvent) (t1 t2 : Nat)
    (he : e.event = .notification) :
    stripTimes (handleHookEvent e (handleHookEvent e store t1) t2) =
      stripTimes (handleHookEvent e store t1) := by
  have hh : ∀ st t, handleHookEvent e st t =
      upsert st e.sessionId (notificationUpdates st e) t := by
    intro st t
    unfold handleHookEvent
    rw [he]
  rw [hh store t1, hh _ t2]
  cases hm : mergedSession e.sessionId (findSession store e.sessionId)
      (notificationUpdates store e) t1 with
  | none =>
    rw [upsert_of_throw hm]
    have hm2 : mergedSession e.sessionId (findSession store e.sessionId)
        (notificationUpdates store e) t2 = none := by
      rw [mergedSession_eq_none_iff] at hm ⊢
      exact hm
    rw [upsert_of_throw hm2]
  | some v =>
    have hfind : findSession (upsert store e.sessionId
        (notificationUpdates store e) t1) e.sessionId = some v :=
      findSession_upsert_self hm
    have hA : (findSession (upsert store e.sessionId
        (notificationUpdates store e) t1) e.sessionId).isNone = false := by
      rw [hfind]
      rfl
    have hpar : ∀ p, strOr e.parentSessionId none = some p →
        e.sessionId ≠ some p →
        findSession (upsert store e.sessionId (notificationUpdates store e) t1)
          (some p) = findSession store (some p) := by
      intro p _ hne
      exact findSession_upsert_ne (fun hcon => hne hcon.symm)
    rw [notificationUpdates_stable _ store e hA hpar]
    exact upsert_upsert_strip store e.sessionId (notificationUpdates store e)
      ({ notificationUpdates store e with name := none, projectPath := none })
      t1 t2 (Or.inr rfl)

/-- Duplicate tool_use: the Task and clear branches recompute fixed updates,
and the preserve branch recomputes the same preserved task basis because the
merge keeps status, alerting and current task. -/
theorem c2_tool_use (store : Store) (e : HookEvent) (t1 t2 : Nat)
    (he : e.event = .tool_use) :
    stripTimes (handleHookEvent e (handleHookEvent e store t1) t2) =
      stripTimes (handleHookEvent e store t1) := by
  have hh : ∀ st t, handleHookEvent e st t =
      if e.toolName = some "Task" then
        upsert st e.sessionId taskToolUpdates t
      else if (!requiresApproval e.toolName
          && (match findSession st e.sessionId with
              | some c => c.status = SessionStatus.needs_input
              | none => false)
          && (match findSession st e.sessionId with
              | some c => c.alerting
              | none => false) : Bool) then
        upsert st e.sessionId (preserveUpdates (findSession st e.sessionId) e) t
      else
        upsert st e.sessionId (clearUpdates e) t := by
    intro st t
    unfold handleHookEvent
    rw [he]
  rw [hh store t1]
  by_cases htask : e.toolName = some "Task"
  · rw [if_pos htask, hh _ t2, if_pos htask]
    exact upsert_upsert_strip store e.sessionId taskToolUpdates taskToolUpdates
      t1 t2 (Or.inl rfl)
  · rw [if_neg htask]
    by_cases hpres : (!requiresApproval e.toolName
        && (match findSession store e.sessionId with
            | some c => c.status = SessionStatus.needs_input
            | none => false)
        && (match findSession store e.sessionId with
            | some c => c.alerting
            | none => false)) = true
    · cases hcur : findSession store e.sessionId with
      | none =>
        rw [hcur] at hpres
        simp at hpres
      | some s =>
        rw [hcur] at hpres
        have hpres2 := hpres
        simp only [Bool.and_eq_true, Bool.not_eq_true', decide_eq_true_eq]
          at hpres2
        obtain ⟨⟨happr, hs⟩, ha⟩ := hpres2
        rw [if_pos hpres]
        cases hm : mergedSession e.sessionId (findSession store e.sessionId)
            (preserveUpdates (some s) e) t1 with
        | none =>
          rw [upsert_of_throw hm, hh store t2, if_neg htask, hcur, if_pos hpres]
          have hm2 : mergedSession e.sessionId (findSession store e.sessionId)
              (preserveUpdates (some s) e) t2 = none := by
            rw [mergedSession_eq_none_iff] at hm ⊢
            exact hm
          rw [upsert_of_throw hm2]
        | some v =>
          obtain ⟨hvs, hva, hvu⟩ := preserveUpdates_after store e t1 hcur hm
          have hfind : findSession (upsert store e.sessionId
              (preserveUpdates (some s) e) t1) e.sessionId = some v :=
            findSession_upsert_self hm
          rw [hh _ t2, if_neg htask]
          have hcond2 : (!requiresApproval e.toolName
              && (match findSession (upsert store e.sessionId
                    (preserveUpdates (some s) e) t1) e.sessionId with
                  | some c => c.status = SessionStatus.needs_input
                  | none => false)
              && (match findSession (upsert store e.sessionId
                    (preserveUpdates (some s) e) t1) e.sessionId with
                  | some c => c.alerting
                  | none => false)) = true := by
            rw [hfind]
            simp [happr, hvs, hs, hva, ha]
          rw [if_pos hcond2, hfind, hvu]
          exact upsert_upsert_strip store e.sessionId (preserveUpdates (some s) e)
            (preserveUpdates (some s) e) t1 t2 (Or.inl rfl)
    · rw [if_neg hpres]
      cases hm : mergedSession e.sessionId (findSession store e.sessionId)
          (clearUpdates e) t1 with
      | none =>
        rw [upsert_of_throw hm, hh store t2, if_neg htask, if_neg hpres]
        have hm2 : mergedSession e.sessionId (findSession store e.sessionId)
            (clearUpdates e) t2 = none := by
          rw [mergedSession_eq_none_iff] at hm ⊢
          exact hm
        rw [upsert_of_throw hm2]
      | some v =>
        have hvw : v.status = .working := clearUpdates_merge_status hm
        have hfind : findSession (upsert store e.sessionId
            (clearUpdates e) t1) e.sessionId = some v :=
          findSession_upsert_self hm
        rw [hh _ t2, if_neg htask]
        have hcond2 : ¬((!requiresApproval e.toolName
            && (match findSession (upsert store e.sessionId
                  (clearUpdates e) t1) e.sessionId with
                | some c => c.status = SessionStatus.needs_input
                | none => false)
            && (match findSession (upsert store e.sessionId
                  (clearUpdates e) t1) e.sessionId with
                | some c => c.alerting
                | none => false)) = true) := by
          rw [hfind]
          simp [hvw]
        rw [if_neg hcond2]
        exact upsert_upsert_strip store e.sessionId (clearUpdates e)
          (clearUpdates e) t1 t2 (Or.inl rfl)

/-- Duplicate status_change: the second delivery computes the same skip data,
so the same updates. -/
theorem c2_status_change (store : Store) (e : HookEvent) (t1 t2 : Nat)
    (he : e.event = .status_change) :
    stripTimes (handleHookEvent e (handleHookEvent e store t1) t2) =
      stripTimes (handleHookEvent e store t1) := by
  have hh : ∀ st t, handleHookEvent e st t =
      if statusChangeUpdates st e = ({} : SessionUpdates) then st
      else upsert st e.sessionId (statusChangeUpdates st e) t := by
    intro st t
    unfold handleHookEvent
    rw [he]
  rw [hh store t1]
  by_cases hemp : statusChangeUpdates store e = ({} : SessionUpdates)
  · rw [if_pos hemp, hh store t2, if_pos hemp]
  · rw [if_neg hemp]
    cases hm : mergedSession e.sessionId (findSession store e.sessionId)
        (statusChangeUpdates store e) t1 with
    | none =>
      rw [upsert_of_throw hm, hh store t2, if_neg hemp]
      have hm2 : mergedSession e.sessionId (findSession store e.sessionId)
          (statusChangeUpdates store e) t2 = none := by
        rw [mergedSession_eq_none_iff] at hm ⊢
        exact hm
      rw [upsert_of_throw hm2]
    | some v =>
      have hfind : findSession (upsert store e.sessionId
          (statusChangeUpdates store e) t1) e.sessionId = some v :=
        findSession_upsert_self hm
      have h1 : ∀ st, e.status = some st →
          (((st = SessionStatus.idle : Bool) &&
            (match findSession (upsert store e.sessionId
                (statusChangeUpdates store e) t1) e.sessionId with
              | some c => (c.status = SessionStatus.needs_input : Bool)
              | none => false)) &&
            (match findSession (upsert store e.sessionId
                (statusChangeUpdates store e) t1) e.sessionId with
              | some c => c.alerting | none => false)) =
          (((st = SessionStatus.idle : Bool) &&
            (match findSession store e.sessionId with
              | some c => (c.status = SessionStatus.needs_input : Bool)
              | none => false)) &&
            (match findSession store e.sessionId with
              | some c => c.alerting | none => false)) := by
        intro st hst
        by_cases hidle : st = SessionStatus.idle
        · subst hidle
          by_cases hskip : (((SessionStatus.idle = SessionStatus.idle : Bool) &&
              (match findSession store e.sessionId with
                | some c => (c.status = SessionStatus.needs_input : Bool)
                | none => false)) &&
              (match findSession store e.sessionId with
                | some c => c.alerting | none => false)) = true
          · obtain ⟨hu1s, hu1a⟩ :=
              statusChangeUpdates_fields store e .idle hst hskip
            cases hcur : findSession store e.sessionId with
            | none =>
              rw [hcur] at hskip
              simp at hskip
            | some s =>
              rw [hcur] at hskip
              simp only [Bool.and_eq_true, decide_eq_true_eq] at hskip
              obtain ⟨⟨_, hs⟩, ha⟩ := hskip
              rw [hcur] at hm
              obtain ⟨nm, hnm, hv⟩ := mergedSession_eq_some_iff.mp hm
              obtain ⟨hms, hma⟩ := mergeRecord_keeps_status_alerting
                e.sessionId s (statusChangeUpdates store e) t1 nm hu1s hu1a
              rw [hv] at hms hma
              rw [hfind]
              simp [hms, hma, hs, ha]
          · have hskipf := Bool.eq_false_iff.mpr hskip
            obtain ⟨hu1s, hu1a⟩ :=
              statusChangeUpdates_fields_write store e .idle hst hskipf
            obtain ⟨nm, hnm, hv⟩ := mergedSession_eq_some_iff.mp hm
            have hms : v.status = SessionStatus.idle := by
              rw [← hv]
              show mergeStatus (findSession store e.sessionId)
                (statusChangeUpdates store e) = .idle
              exact mergeStatus_of_some hu1s
            rw [hfind, hskipf]
            simp [hms]
        · simp [hidle]
      have hstab : statusChangeUpdates (upsert store e.sessionId
          (statusChangeUpdates store e) t1) e = statusChangeUpdates store e :=
        statusChangeUpdates_stable _ store e h1
      rw [hh _ t2, hstab, if_neg hemp]
      exact upsert_upsert_strip store e.sessionId (statusChangeUpdates store e)
        (statusChangeUpdates store e) t1 t2 (Or.inl rfl)

/-- Duplicate todo_update: the updates depend only on the event. -/
theorem c2_todo (store : Store) (e : HookEvent) (t1 t2 : Nat)
    (he : e.event = .todo_update) :
    stripTimes (handleHookEvent e (handleHookEvent e store t1) t2) =
      stripTimes (handleHookEvent e store t1) := by
  have hh : ∀ st t, handleHookEvent e st t =
      match e.todos with
      | some ts => upsert st e.sessionId (todoUpdates ts) t
      | none => st := by
    intro st t
    unfold handleHookEvent
    rw [he]
  rw [hh store t1, hh _ t2]
  cases hts : e.todos with
  | none => rfl
  | some ts =>
    exact upsert_upsert_strip store e.sessionId (todoUpdates ts) (todoUpdates ts)
      t1 t2 (Or.inl rfl)

/-- C2 (amended): every hook event is idempotent under duplicate delivery up
to the last-activity timestamp of the touched record, provided that for a
session_start event at most one pending record in the store carries the
event's project path; without that proviso session_start diverges, as each
delivery removes one further pending record for the path. -/
theorem C2_duplicate_delivery_idempotent (store : Store) (e : HookEvent)
    (t1 t2 : Nat)
    (hp : e.event = .session_start →
      ∀ a ∈ store, ∀ b ∈ store, a.status = .pending → b.status = .pending →
        a.projectPath = strOr e.cwd none → b.projectPath = strOr e.cwd none →
        a = b) :
    stripTimes (handleHookEvent e (handleHookEvent e store t1) t2) =
      stripTimes (handleHookEvent e store t1) := by
  cases he : e.event with
  | session_start => exact c2_session_start store e t1 t2 he (hp he)
  | session_end => exact c2_session_end store e t1 t2 he
  | notification => exact c2_notification store e t1 t2 he
  | tool_use => exact c2_tool_use store e t1 t2 he
  | status_change => exact c2_status_change store e t1 t2 he
  | subagent_start =>
    have hh : ∀ st t, handleHookEvent e st t =
        upsert st e.sessionId (subagentStartUpdates e) t := by
      intro st t
      unfold handleHookEvent
      rw [he]
    rw [hh store t1, hh _ t2]
    exact upsert_upsert_strip store e.sessionId (subagentStartUpdates e)
      (subagentStartUpdates e) t1 t2 (Or.inl rfl)
  | subagent_stop =>
    have hh : ∀ st t, handleHookEvent e st t =
        upsert st e.sessionId subagentStopUpdates t := by
      intro st t
      unfold handleHookEvent
      rw [he]
    rw [hh store t1, hh _ t2]
    exact upsert_upsert_strip store e.sessionId subagentStopUpdates
      subagentStopUpdates t1 t2 (Or.inl rfl)
  | todo_update => exact c2_todo store e t1 t2 he
  | plan_update =>
    have hh : ∀ st t, handleHookEvent e st t =
        upsert st e.sessionId ({} : SessionUpdates) t := by
      intro st t
      unfold handleHookEvent
      rw [he]
    rw [hh store t1, hh _ t2]
    exact upsert_upsert_strip store e.sessionId ({} : SessionUpdates)
      ({} : SessionUpdates) t1 t2 (Or.inl rfl)

/-- A store with a single pending record, satisfying the amended proviso. -/
def c2wstore : Store :=
  [{ id := some "p1", name := "p1", status := .pending,
     projectPath := some "/a", lastActivity := 1 }]

/-- Witness for the amended C2 at a concrete session_start event over a store
holding one pending record for the event's path. -/
theorem C2_duplicate_delivery_idempotent_witness :
    (c2event.event = .session_start →
      ∀ a ∈ c2wstore, ∀ b ∈ c2wstore, a.status = .pending →
        b.status = .pending → a.projectPath = strOr c2event.cwd none →
        b.projectPath = strOr c2event.cwd none → a = b) ∧
    stripTimes (handleHookEvent c2event (handleHookEvent c2event c2wstore 1) 2) =
      stripTimes (handleHookEvent c2event c2wstore 1) :=
  ⟨by decide, C2_duplicate_delivery_idempotent c2wstore c2event 1 2 (by decide)⟩

/-- The spec's transitive-descendant relation: a descendant is a direct child
of the session or a child of a descendant, parent links read from the store. -/
inductive Desc (store : Store) (sid : SessId) : ClaudeSession → Prop where
  | child {c : ClaudeSession} (hc : c ∈ store) (hp : c.parentId = sid) :
      Desc store sid c
  | step {c d : ClaudeSession} (hc : Desc store sid c) (hd : d ∈ store)
      (hp : d.parentId = c.id) : Desc store sid d

/-- Modelled from the spec: the aggregation contract for aggregate(sid) over
the record s it resolves — the direct child count, alerting as the
disjunction over the session and its transitive descendants, effective status
drawn from the session or a descendant and of highest priority (smallest
STATUS_PRIORITY) among them, and at least one alerting child whenever some
descendant alerts. -/
def aggregateSpec (store : Store) (sid : SessId) (s : ClaudeSession)
    (a : AggregatedStatus) : Prop :=
  a.childCount = (getChildren store sid).length ∧
  (a.alerting = true ↔
    (s.alerting = true ∨ ∃ d, Desc store sid d ∧ d.alerting = true)) ∧
  (a.status = s.status ∨ ∃ d, Desc store sid d ∧ a.status = d.status) ∧
  STATUS_PRIORITY a.status ≤ STATUS_PRIORITY s.status ∧
  (∀ d, Desc store sid d → STATUS_PRIORITY a.status ≤ STATUS_PRIORITY d.status) ∧
  ((∃ d, Desc store sid d ∧ d.alerting = true) → 1 ≤ a.alertingChildCount)

theorem mem_getChildren {store : Store} {pid : SessId} {c : ClaudeSession} :
    c ∈ getChildren store pid ↔ c ∈ store ∧ c.parentId = pid := by
  simp [getChildren]

theorem Desc_up {store : Store} {sid : SessId} {c d : ClaudeSession}
    (hc : c ∈ store) (hp : c.parentId = sid) (hd : Desc store c.id d) :
    Desc store sid d := by
  induction hd with
  | child hd2 hp2 => exact Desc.step (Desc.child hc hp) hd2 hp2
  | step hdc hd2 hp2 ih => exact Desc.step ih hd2 hp2

theorem Desc_through_child {store : Store} {sid : SessId} {d : ClaudeSession}
    (hd : Desc store sid d) :
    ∃ c, c ∈ getChildren store sid ∧ (c = d ∨ Desc store c.id d) := by
  induction hd with
  | child hc hp => exact ⟨_, mem_getChildren.mpr ⟨hc, hp⟩, Or.inl rfl⟩
  | step hdc hd2 hp2 ih =>
    obtain ⟨c0, hc0, hor⟩ := ih
    rcases hor with rfl | hdesc
    · exact ⟨c0, hc0, Or.inr (Desc.child hd2 hp2)⟩
    · exact ⟨c0, hc0, Or.inr (Desc.step hdesc hd2 hp2)⟩

theorem mapOpt_eq_some_of_forall {α β : Type} {f : α → Option β} :
    ∀ {l : List α}, (∀ a ∈ l, ∃ b, f a = some b) →
      ∃ bs, mapOpt f l = some bs ∧
        List.Forall₂ (fun a b => f a = some b) l bs := by
  intro l
  induction l with
  | nil => exact fun _ => ⟨[], rfl, List.Forall₂.nil⟩
  | cons a as ih =>
    intro h
    obtain ⟨b, hb⟩ := h a (List.mem_cons_self a as)
    obtain ⟨bs, hbs, hf⟩ := ih (fun x hx => h x (List.mem_cons_of_mem a hx))
    refine ⟨b :: bs, ?_, List.Forall₂.cons hb hf⟩
    show mapOpt f (a :: as) = some (b :: bs)
    simp only [mapOpt]
    rw [hb, hbs]

theorem forall2_zip_mem {α β : Type} {R : α → β → Prop} {l1 : List α}
    {l2 : List β} (h : List.Forall₂ R l1 l2) :
    ∀ a ∈ l1, ∃ b, (a, b) ∈ l1.zip l2 ∧ R a b := by
  induction h with
  | nil => exact fun a ha => absurd ha (List.not_mem_nil a)
  | cons hab htail ih =>
    intro a ha
    rcases List.mem_cons.mp ha with rfl | ha2
    · exact ⟨_, List.mem_cons_self _ _, hab⟩
    · obtain ⟨b, hb, hr⟩ := ih a ha2
      exact ⟨b, List.mem_cons_of_mem _ hb, hr⟩

theorem forall2_zip_mem_right {α β : Type} {R : α → β → Prop} {l1 : List α}
    {l2 : List β} (h : List.Forall₂ R l1 l2) :
    ∀ b ∈ l2, ∃ a, (a, b) ∈ l1.zip l2 ∧ R a b := by
  induction h with
  | nil => exact fun b hb => absurd hb (List.not_mem_nil b)
  | cons hab htail ih =>
    intro b hb
    rcases List.mem_cons.mp hb with rfl | hb2
    · exact ⟨_, List.mem_cons_self _ _, hab⟩
    · obtain ⟨a, ha, hr⟩ := ih b hb2
      exact ⟨a, List.mem_cons_of_mem _ ha, hr⟩

theorem zip_mem_forall2 {α β : Type} {R : α → β → Prop} {l1 : List α}
    {l2 : List β} (h : List.Forall₂ R l1 l2) :
    ∀ p ∈ l1.zip l2, R p.1 p.2 := by
  induction h with
  | nil => exact fun p hp => absurd hp (List.not_mem_nil p)
  | cons hab htail ih =>
    intro p hp
    rcases List.mem_cons.mp hp with rfl | hp2
    · exact hab
    · exact ih p hp2

/-- The min-priority fold of the aggregation: its result is the seed or a
list member's status, and its priority is a lower bound of both. -/
theorem foldl_priority (l : List AggregatedStatus) :
    ∀ init : SessionStatus,
      ((l.foldl (fun h a =>
          if STATUS_PRIORITY a.status < STATUS_PRIORITY h then a.status else h)
        init) = init ∨
        ∃ b ∈ l, (l.foldl (fun h a =>
          if STATUS_PRIORITY a.status < STATUS_PRIORITY h then a.status else h)
          init) = b.status) ∧
      STATUS_PRIORITY (l.foldl (fun h a =>
          if STATUS_PRIORITY a.status < STATUS_PRIORITY h then a.status else h)
        init) ≤ STATUS_PRIORITY init ∧
      ∀ b ∈ l, STATUS_PRIORITY (l.foldl (fun h a =>
          if STATUS_PRIORITY a.status < STATUS_PRIORITY h then a.status else h)
        init) ≤ STATUS_PRIORITY b.status := by
  induction l with
  | nil =>
    intro init
    exact ⟨Or.inl rfl, Nat.le_refl _, fun b hb => absurd hb (List.not_mem_nil b)⟩
  | cons a l ih =>
    intro init
    rw [List.foldl_cons]
    obtain ⟨hmem, hle, hall⟩ :=
      ih (if STATUS_PRIORITY a.status < STATUS_PRIORITY init then a.status
        else init)
    refine ⟨?_, ?_, ?_⟩
    · rcases hmem with heq | ⟨b, hb, heq⟩
      · by_cases hlt : STATUS_PRIORITY a.status < STATUS_PRIORITY init
        · exact Or.inr ⟨a, List.mem_cons_self a l, heq.trans (if_pos hlt)⟩
        · exact Or.inl (heq.trans (if_neg hlt))
      · exact Or.inr ⟨b, List.mem_cons_of_mem a hb, heq⟩
    · refine Nat.le_trans hle ?_
      by_cases hlt : STATUS_PRIORITY a.status < STATUS_PRIORITY init
      · rw [if_pos hlt]
        exact Nat.le_of_lt hlt
      · rw [if_neg hlt]
    · intro b hb
      rcases List.mem_cons.mp hb with rfl | hb2
      · refine Nat.le_trans hle ?_
        by_cases hlt : STATUS_PRIORITY b.status < STATUS_PRIORITY init
        · rw [if_pos hlt]
        · rw [if_neg hlt]
          exact Nat.le_of_not_lt hlt
      · exact hall b hb2

/-- C5: for a session present in a store whose parent links admit a strictly
decreasing measure (no cycles) and whose ids are unique, the aggregation
terminates within any fuel exceeding the session's measure and returns the
spec's aggregate: direct child count, alerting as the disjunction over the
session and its transitive descendants, and the highest-priority status among
the session and its transitive descendants; whenever a descendant alerts, at
least one child is counted alerting. -/
theorem C5_aggregation (store : Store) (m : SessId → Nat) (fuel : Nat)
    (sid : SessId) (s : ClaudeSession)
    (hnd : (store.map (fun x => x.id)).Nodup)
    (hm : ∀ c ∈ store, m c.id < m c.parentId)
    (hfuel : m sid < fuel) (hfind : findSession store sid = some s) :
    ∃ a, getAggregatedStatusF fuel store sid = some a ∧
      aggregateSpec store sid s a := by
  have main : ∀ fuel : Nat, ∀ sid : SessId, ∀ s : ClaudeSession,
      m sid < fuel → findSession store sid = some s →
      ∃ a, getAggregatedStatusF fuel store sid = some a ∧
        aggregateSpec store sid s a := by
    intro fuel
    induction fuel with
    | zero =>
      intro sid s hf
      exact absurd hf (Nat.not_lt_zero _)
    | succ fuel ih =>
      intro sid s hf hfd
      have hfuel2 : m sid ≤ fuel := Nat.lt_succ_iff.mp hf
      have hall : ∀ c ∈ getChildren store sid,
          ∃ b, getAggregatedStatusF fuel store c.id = some b := by
        intro c hc
        obtain ⟨hcs, hcp⟩ := mem_getChildren.mp hc
        have hlt : m c.id < fuel :=
          Nat.lt_of_lt_of_le (hcp ▸ hm c hcs) hfuel2
        obtain ⟨b, hb, _⟩ := ih c.id c hlt (findSession_of_nodup hnd hcs)
        exact ⟨b, hb⟩
      obtain ⟨childAggs, hmap, hfor⟩ := mapOpt_eq_some_of_forall hall
      have hpair : ∀ p ∈ (getChildren store sid).zip childAggs,
          aggregateSpec store p.1.id p.1 p.2 := by
        intro p hp
        have hR := zip_mem_forall2 hfor p hp
        obtain ⟨c0, b0⟩ := p
        obtain ⟨hcs, hcp⟩ := mem_getChildren.mp (List.of_mem_zip hp).1
        have hlt : m c0.id < fuel :=
          Nat.lt_of_lt_of_le (hcp ▸ hm c0 hcs) hfuel2
        obtain ⟨b, hb, hbs⟩ := ih c0.id c0 hlt (findSession_of_nodup hnd hcs)
        have hbe : b = b0 := Option.some.inj (hb.symm.trans hR)
        exact hbe ▸ hbs
      have hlen : (((getChildren store sid).zip childAggs).filter
            (fun p => p.1.alerting || p.2.alerting)).length > 0 ↔
          ∃ d, Desc store sid d ∧ d.alerting = true := by
        constructor
        · intro hpos
          obtain ⟨p, hpf⟩ := List.exists_mem_of_length_pos hpos
          obtain ⟨hpz, hq⟩ := List.mem_filter.mp hpf
          obtain ⟨c0, b0⟩ := p
          obtain ⟨hcs, hcp⟩ := mem_getChildren.mp (List.of_mem_zip hpz).1
          simp only [Bool.or_eq_true] at hq
          rcases hq with h1 | h2
          · exact ⟨c0, Desc.child hcs hcp, h1⟩
          · have hsp := hpair (c0, b0) hpz
            rcases (hsp.2.1).mp h2 with hca | ⟨d, hdd, hda⟩
            · exact ⟨c0, Desc.child hcs hcp, hca⟩
            · exact ⟨d, Desc_up hcs hcp hdd, hda⟩
        · rintro ⟨d, hdd, hda⟩
          obtain ⟨c0, hc0, hor⟩ := Desc_through_child hdd
          obtain ⟨b0, hzip, hR⟩ := forall2_zip_mem hfor c0 hc0
          have hq : (c0.alerting || b0.alerting) = true := by
            rcases hor with rfl | hdesc
            · rw [Bool.or_eq_true]
              exact Or.inl hda
            · have hsp := hpair (c0, b0) hzip
              rw [Bool.or_eq_true]
              exact Or.inr ((hsp.2.1).mpr (Or.inr ⟨d, hdesc, hda⟩))
          exact List.length_pos_of_mem (List.mem_filter.mpr ⟨hzip, hq⟩)
      rw [getAggregatedStatusF, hfd]
      dsimp only
      rw [hmap]
      dsimp only
      refine ⟨_, rfl, rfl, ?_, ?_, ?_, ?_, ?_⟩
      · show (s.alerting || _) = true ↔ _
        rw [Bool.or_eq_true, decide_eq_true_eq]
        exact or_congr Iff.rfl hlen
      · obtain ⟨hmem, hinit, hallb⟩ := foldl_priority childAggs s.status
        rcases hmem with heq | ⟨b0, hb0, heq⟩
        · exact Or.inl heq
        · obtain ⟨c0, hzip, hR⟩ := forall2_zip_mem_right hfor b0 hb0
          have hsp := hpair (c0, b0) hzip
          obtain ⟨hcs, hcp⟩ := mem_getChildren.mp (List.of_mem_zip hzip).1
          rcases hsp.2.2.1 with hbc | ⟨d, hdd, hbd⟩
          · exact Or.inr ⟨c0, Desc.child hcs hcp, heq.trans hbc⟩
          · exact Or.inr ⟨d, Desc_up hcs hcp hdd, heq.trans hbd⟩
      · exact (foldl_priority childAggs s.status).2.1
      · intro d hdd
        obtain ⟨c0, hc0, hor⟩ := Desc_through_child hdd
        obtain ⟨b0, hzip, hR⟩ := forall2_zip_mem hfor c0 hc0
        have hb0 : b0 ∈ childAggs := (List.of_mem_zip hzip).2
        have hres := (foldl_priority childAggs s.status).2.2 b0 hb0
        have hsp := hpair (c0, b0) hzip
        rcases hor with rfl | hdesc
        · exact Nat.le_trans hres hsp.2.2.2.1
        · exact Nat.le_trans hres (hsp.2.2.2.2.1 d hdesc)
      · intro hex
        exact hlen.mpr hex
  exact main fuel sid s hfuel hfind

/-- The parent record of the C5 witness store. -/
def c5par : ClaudeSession :=
  { id := some "par", name := "par", status := .idle, lastActivity := 1 }

/-- The alerting needs_input child of the C5 witness store. -/
def c5kid1 : ClaudeSession :=
  { id := some "c1", name := "c1", status := .needs_input, alerting := true,
    parentId := some "par", lastActivity := 1 }

/-- The idle child of the C5 witness store. -/
def c5kid2 : ClaudeSession :=
  { id := some "c2", name := "c2", status := .idle,
    parentId := some "par", lastActivity := 1 }

/-- The C5 witness store: a parent with two children, one needs_input and
alerting, one idle. -/
def c5store : Store := [c5par, c5kid1, c5kid2]

/-- The descent measure of the C5 witness store. -/
def c5measure : SessId → Nat
  | some "par" => 1
  | none => 2
  | _ => 0

/-- Witness for C5 at the parent of the two-children store, with the spec's
particular aggregate value needs_input, alerting, two children and one
alerting child. -/
theorem C5_aggregation_witness :
    ((c5store.map (fun x => x.id)).Nodup ∧
      (∀ c ∈ c5store, c5measure c.id < c5measure c.parentId) ∧
      c5measure (some "par") < 2 ∧
      findSession c5store (some "par") = some c5par) ∧
    (∃ a, getAggregatedStatusF 2 c5store (some "par") = some a ∧
      aggregateSpec c5store (some "par") c5par a) ∧
    getAggregatedStatusF 2 c5store (some "par") =
      some ⟨.needs_input, true, 2, 1⟩ :=
  ⟨⟨by decide, by decide, by decide, by decide⟩,
    C5_aggregation c5store c5measure 2 (some "par") c5par (by decide)
      (by decide) (by decide) (by decide),
    by decide⟩

/-- The concrete session for the C10 witness. -/
def c10rec : ClaudeSession :=
  { id := some "s1", name := "alpha", status := .needs_input,
    projectPath := some "/repo", currentTask := some "t",
    pendingMessage := some "Approve?", alerting := true,
    attentionType := some .critical,
    terminal := ⟨.tmux, "main:0.1", some 42, some "/dev/tty1"⟩,
    parentId := some "p", todos := some [], lastStatus := some "ls",
    lastActivity := 1 }

/-- The concrete clearing partial for the C10 witness: every clearable field
supplied as undefined, null, zero or the empty string. -/
def c10updates : SessionUpdates :=
  { name := some "", projectPath := some "",
    attentionType := some none,
    terminal := some ⟨.tmux, "", some 0, some ""⟩ }

/-- Witness for C10 at a concrete store and clearing partial. -/
theorem C10_upsert_never_clears_witness :
    (findSession [c10rec] (some "s1") = some c10rec) ∧
    (∃ r, findSession (upsert [c10rec] (some "s1") c10updates 9) (some "s1") = some r ∧
      ((c10updates.name = none ∨ c10updates.name = some "") →
        c10rec.name ≠ "" → r.name = c10rec.name) ∧
      (c10updates.status = none → r.status = c10rec.status) ∧
      ((c10updates.projectPath = none ∨ c10updates.projectPath = some "") →
        c10rec.projectPath ≠ some "" → r.projectPath = c10rec.projectPath) ∧
      (c10updates.currentTask = none → r.currentTask = c10rec.currentTask) ∧
      (c10updates.pendingMessage = none → r.pendingMessage = c10rec.pendingMessage) ∧
      (c10updates.alerting = none → r.alerting = c10rec.alerting) ∧
      ((c10updates.attentionType = none ∨ c10updates.attentionType = some none) →
        r.attentionType = c10rec.attentionType) ∧
      (c10updates.parentId = none → r.parentId = c10rec.parentId) ∧
      (c10updates.todos = none → r.todos = c10rec.todos) ∧
      (c10updates.lastStatus = none → r.lastStatus = c10rec.lastStatus) ∧
      (c10updates.terminal = none → r.terminal = c10rec.terminal) ∧
      (∀ tc, c10updates.terminal = some tc →
        (tc.id = "" → r.terminal.id = c10rec.terminal.id) ∧
        ((tc.shellPid = none ∨ tc.shellPid = some 0) →
          r.terminal.shellPid = c10rec.terminal.shellPid) ∧
        ((tc.ttyPath = none ∨ tc.ttyPath = some "") →
          r.terminal.ttyPath = c10rec.terminal.ttyPath)) ∧
      (c10rec.name ≠ "" → r.name ≠ "")) :=
  ⟨by decide,
    C10_upsert_never_clears [c10rec] (some "s1") c10updates 9 c10rec (by decide)⟩

end Cast
